import Mathlib

/-!
Verification of the core logic of the subscTracker backend: the billing-date
calculator and cost conversions of `app/models/subscription.py` and
`app/services/subscription_service.py`, and the label-hierarchy manager of
`app/models/label.py` and `app/services/label_service.py`.

Python strings are modelled as `List Char` (ASCII case mapping, which covers
every input the validators accept), Python `date` values as a year/month/day
record, Python `float` prices as exact rationals (the claims under check are
about which arithmetic operation is applied, not about rounding), and the
database session as an in-memory list of rows.  Fallible Python methods
(raising `ValueError` etc.) are embedded as `Except`-valued functions whose
error constructors mirror the `ErrorMessages` constants of
`app/constants.py`.
-/

/-! ## Python string primitives -/

/-- The characters removed by Python `str.strip()`. -/
def isPySpace (c : Char) : Bool :=
  c.toNat == 32 || c.toNat == 9 || c.toNat == 10 ||
  c.toNat == 11 || c.toNat == 12 || c.toNat == 13

/-- Python `str.strip()`: drop leading and trailing whitespace. -/
def pyStrip (s : List Char) : List Char :=
  ((s.dropWhile isPySpace).reverse.dropWhile isPySpace).reverse

/-- Python `str.upper()` on a whole string.  `Char.toUpper` is exactly the
ASCII case map (`a`–`z` to `A`–`Z`), which is what Python's `upper` does on
every character the color/name/currency validators accept. -/
def pyUpper (s : List Char) : List Char := s.map Char.toUpper

/-- Python `str.lower()` on a whole string (ASCII case map, as above). -/
def pyLower (s : List Char) : List Char := s.map Char.toLower

/-- Convenience: the character list of a string literal. -/
def pyStr (s : String) : List Char := s.toList

/-! ## Dates (`datetime.date` and `calendar.monthrange`) -/

/-- A Python `datetime.date` value (always a valid calendar date in Python;
validity is an explicit hypothesis `PyDate.Valid` here). -/
structure PyDate where
  year : Nat
  month : Nat
  day : Nat
deriving Repr, DecidableEq

/-- Gregorian leap-year rule, as used by Python's `calendar` module. -/
def isLeapYear (y : Nat) : Bool :=
  y % 4 == 0 && (y % 100 != 0 || y % 400 == 0)

/-- `calendar.monthrange(y, m)[1]`: the number of days in month `m` of
year `y`. -/
def monthrangeDays (y m : Nat) : Nat :=
  if m == 2 then (if isLeapYear y then 29 else 28)
  else if m == 4 || m == 6 || m == 9 || m == 11 then 30
  else 31

/-- The date is a real calendar date (what Python's `date` constructor
enforces). -/
def PyDate.Valid (d : PyDate) : Prop :=
  1 ≤ d.month ∧ d.month ≤ 12 ∧ 1 ≤ d.day ∧ d.day ≤ monthrangeDays d.year d.month

instance (d : PyDate) : Decidable d.Valid := by
  unfold PyDate.Valid; infer_instance

/-- Python `date` comparison is lexicographic on (year, month, day). -/
def dateLtb (a b : PyDate) : Bool :=
  a.year < b.year ||
    (a.year == b.year &&
      (a.month < b.month || (a.month == b.month && a.day < b.day)))

def dateLeb (a b : PyDate) : Bool := dateLtb a b || a == b

namespace Subscription

/-- One pass of the year-overflow loop of `Subscription._add_months`
(`while month > 12: year += 1; month -= 12`).  The loop strictly decreases
`month` by 12 per iteration, so `month` itself is enough fuel; the fuel is
never exhausted before the loop condition fails. -/
def normalizeYMAux (fuel : Nat) (y m : Nat) : Nat × Nat :=
  match fuel with
  | 0 => (y, m)
  | f + 1 => if m > 12 then normalizeYMAux f (y + 1) (m - 12) else (y, m)

/-- The year-overflow loop of `Subscription._add_months`. -/
def normalizeYM (y m : Nat) : Nat × Nat := normalizeYMAux m y m

/-- `Subscription._is_last_day_of_month` from `app/models/subscription.py`. -/
def is_last_day_of_month (d : PyDate) : Bool :=
  d.day == monthrangeDays d.year d.month

/-- `Subscription._add_months` from `app/models/subscription.py`. -/
def add_months (d : PyDate) (months : Nat) : PyDate :=
  let year := d.year
  let month := d.month + months
  let day := d.day
  let ym := normalizeYM year month
  if is_last_day_of_month d then
    { year := ym.1, month := ym.2, day := monthrangeDays ym.1 ym.2 }
  else
    { year := ym.1, month := ym.2, day := min day (monthrangeDays ym.1 ym.2) }

end Subscription

section Scratch

example : Subscription.add_months ⟨2024, 1, 31⟩ 1 = ⟨2024, 2, 29⟩ := by decide
example : Subscription.add_months ⟨2023, 1, 31⟩ 1 = ⟨2023, 2, 28⟩ := by decide
example : Subscription.add_months ⟨2024, 5, 31⟩ 1 = ⟨2024, 6, 30⟩ := by decide
example : Subscription.add_months ⟨2024, 3, 31⟩ 1 = ⟨2024, 4, 30⟩ := by decide
example : Subscription.add_months ⟨2024, 4, 30⟩ 1 = ⟨2024, 5, 31⟩ := by decide

end Scratch

namespace Subscription

theorem normalizeYMAux_spec (f : Nat) : ∀ y m : Nat, m ≤ f + 12 →
    (normalizeYMAux f y m).1 * 12 + (normalizeYMAux f y m).2 = y * 12 + m ∧
    (normalizeYMAux f y m).2 ≤ 12 ∧ (1 ≤ m → 1 ≤ (normalizeYMAux f y m).2) := by
  induction f with
  | zero =>
    intro y m hm
    rw [show normalizeYMAux 0 y m = (y, m) from rfl]
    exact ⟨by omega, by omega, by omega⟩
  | succ f ih =>
    intro y m hm
    rw [show normalizeYMAux (f + 1) y m =
      (if m > 12 then normalizeYMAux f (y + 1) (m - 12) else (y, m)) from rfl]
    by_cases h : m > 12
    · simp only [h, if_true]
      obtain ⟨e1, e2, e3⟩ := ih (y + 1) (m - 12) (by omega)
      have e4 : 1 ≤ (normalizeYMAux f (y + 1) (m - 12)).2 := e3 (by omega)
      exact ⟨by omega, by omega, by omega⟩
    · simp only [h, if_false]
      exact ⟨trivial, by omega, by omega⟩

/-- The year-overflow loop preserves the linear month index and lands in
`1 ≤ month ≤ 12` (whenever the incoming month is at least 1). -/
theorem normalizeYM_spec (y m : Nat) :
    (normalizeYM y m).1 * 12 + (normalizeYM y m).2 = y * 12 + m ∧
    (normalizeYM y m).2 ≤ 12 ∧ (1 ≤ m → 1 ≤ (normalizeYM y m).2) :=
  normalizeYMAux_spec m y m (by omega)

theorem add_months_year_month (d : PyDate) (m : Nat) :
    (add_months d m).year = (normalizeYM d.year (d.month + m)).1 ∧
    (add_months d m).month = (normalizeYM d.year (d.month + m)).2 := by
  simp only [add_months]
  by_cases h : is_last_day_of_month d = true <;> simp [h]

/-- Adding at least one month yields a strictly later date (only validity of
the month field is needed). -/
theorem add_months_strict (d : PyDate) (m : Nat) (hm : 1 ≤ m)
    (h1 : 1 ≤ d.month) (h2 : d.month ≤ 12) :
    dateLtb d (add_months d m) = true := by
  obtain ⟨hy, hmo⟩ := add_months_year_month d m
  have hs := normalizeYM_spec d.year (d.month + m)
  simp only [dateLtb, Bool.or_eq_true, Bool.and_eq_true, decide_eq_true_eq,
    beq_iff_eq]
  omega

theorem dateLtb_asymm (a b : PyDate) (h : dateLtb a b = true) :
    dateLtb b a = false := by
  simp only [dateLtb, Bool.or_eq_true, Bool.and_eq_true, decide_eq_true_eq,
    beq_iff_eq] at h
  simp only [dateLtb, Bool.or_eq_false_iff, Bool.and_eq_false_iff,
    decide_eq_false_iff_not, beq_eq_false_iff_ne, ne_eq]
  omega

theorem dateLtb_false_iff_dateLeb (a b : PyDate) :
    dateLtb a b = false ↔ dateLeb b a = true := by
  cases a with
  | mk ay am ad =>
    cases b with
    | mk by_ bm bd =>
      simp only [dateLtb, dateLeb, Bool.or_eq_true, Bool.and_eq_true,
        decide_eq_true_eq, beq_iff_eq, Bool.or_eq_false_iff,
        Bool.and_eq_false_iff, decide_eq_false_iff_not, beq_eq_false_iff_ne,
        ne_eq, PyDate.mk.injEq]
      constructor
      · intro h
        omega
      · intro h
        omega

end Subscription

/-! ## Character-level facts about the ASCII case maps -/

theorem char_toNat_ofNat (n : Nat) (h : n < 55296) : (Char.ofNat n).toNat = n := by
  unfold Char.ofNat
  rw [dif_pos (Or.inl (by omega : n < 0xd800))]
  unfold Char.ofNatAux Char.toNat
  simp [UInt32.ofNat', UInt32.toNat]

theorem char_eq_iff_toNat {c d : Char} : c = d ↔ c.toNat = d.toNat := by
  constructor
  · intro h
    rw [h]
  · intro h
    apply Char.ext
    exact UInt32.toNat.inj h

theorem toUpper_toNat (c : Char) :
    (Char.toUpper c).toNat =
      if 97 ≤ c.toNat ∧ c.toNat ≤ 122 then c.toNat - 32 else c.toNat := by
  unfold Char.toUpper
  by_cases h : 97 ≤ c.toNat ∧ c.toNat ≤ 122
  · rw [if_pos h, if_pos ⟨h.1, h.2⟩, char_toNat_ofNat _ (by omega)]
  · rw [if_neg h, if_neg (by omega)]

theorem toUpper_idem (c : Char) :
    Char.toUpper (Char.toUpper c) = Char.toUpper c := by
  rw [char_eq_iff_toNat, toUpper_toNat, toUpper_toNat]
  split_ifs <;> omega

theorem toUpper_eq_hash_iff (c : Char) : Char.toUpper c = '#' ↔ c = '#' := by
  rw [char_eq_iff_toNat, char_eq_iff_toNat, toUpper_toNat]
  have : ('#').toNat = 35 := by decide
  split_ifs <;> omega

theorem isPySpace_iff (c : Char) : isPySpace c = true ↔
    (c.toNat = 32 ∨ c.toNat = 9 ∨ c.toNat = 10 ∨ c.toNat = 11 ∨
     c.toNat = 12 ∨ c.toNat = 13) := by
  simp only [isPySpace, Bool.or_eq_true, beq_iff_eq]
  tauto

theorem isPySpace_toUpper (c : Char) :
    isPySpace (Char.toUpper c) = isPySpace c := by
  rw [Bool.eq_iff_iff, isPySpace_iff, isPySpace_iff, toUpper_toNat]
  split_ifs <;> omega


/-! ## Label color normalization (`app/models/label.py`) -/

namespace Label

/-- The length-4 branch of `_normalize_color`:
`if len(color) == 4: color = f"#{color[1]}{color[1]}{color[2]}{color[2]}{color[3]}{color[3]}"`. -/
def expand4 (l : List Char) : List Char :=
  match l with
  | [_, a, b, c] => ['#', a, a, b, b, c, c]
  | _ => l

/-- `Label._normalize_color` from `app/models/label.py`.  The Python code
returns falsy input unchanged, strips, uppercases, prepends `#` when the
string does not start with one, and expands any string of length 4 by
doubling the characters at indices 1, 2, 3 behind a literal `#`. -/
def normalize_color (color : List Char) : List Char :=
  if color = [] then color
  else
    let c1 := pyUpper (pyStrip color)
    let c2 := if c1.head? = some '#' then c1 else '#' :: c1
    expand4 c2

/-- A character matched by the regex class `[0-9A-F]`. -/
def is_hex_digit (c : Char) : Bool :=
  (48 ≤ c.toNat && c.toNat ≤ 57) || (65 ≤ c.toNat && c.toNat ≤ 70)

/-- `Label._is_valid_hex_color`: `re.match(r"^#[0-9A-F]{6}$", color)`.
The `$` anchor would also tolerate one trailing newline, but this function
is only ever applied to `normalize_color` output, which cannot end in a
newline (boundary whitespace is stripped and the expansion only doubles
non-boundary characters), so exact matching is faithful. -/
def is_valid_hex_color (color : List Char) : Bool :=
  match color with
  | '#' :: rest => rest.length == 6 && rest.all is_hex_digit
  | _ => false

/-- The claim's expansion step: expand only a genuine hex shorthand. -/
def expand4Hex (l : List Char) : List Char :=
  match l with
  | [_, a, b, c] =>
    if is_hex_digit a && is_hex_digit b && is_hex_digit c then
      ['#', a, a, b, b, c, c]
    else l
  | _ => l

/-- The claim's (and spec's) description of `normalize_color`: trim, add a
`#` prefix when missing, uppercase, and expand only a genuine hex shorthand
(`#` followed by exactly 3 hex digits). -/
def claimNormalizeColor (color : List Char) : List Char :=
  if color = [] then color
  else
    let t := pyStrip color
    let u := if t.head? = some '#' then t else '#' :: t
    expand4Hex (pyUpper u)

/-- The claim's description amended at the one point the code differs: the
length-4 expansion fires for any three trailing characters, hex or not. -/
def claimNormalizeColorAmended (color : List Char) : List Char :=
  if color = [] then color
  else
    let t := pyStrip color
    let u := if t.head? = some '#' then t else '#' :: t
    expand4 (pyUpper u)

end Label

section Scratch2

example : Label.normalize_color (pyStr "#fff") = pyStr "#FFFFFF" := by decide
example : Label.normalize_color (pyStr "fff") = pyStr "#FFFFFF" := by decide
example : Label.normalize_color (pyStr "  #AbC  ") = pyStr "#AABBCC" := by decide
example : Label.normalize_color (pyStr "zzz") = pyStr "#ZZZZZZ" := by decide
example : Label.claimNormalizeColor (pyStr "zzz") = pyStr "#ZZZ" := by decide
example : Label.claimNormalizeColorAmended (pyStr "zzz") = pyStr "#ZZZZZZ" := by decide
example : Label.normalize_color (pyStr " a b ") = pyStr "#AA  BB" := by decide
example : Label.normalize_color (pyStr "#AA  BB") = pyStr "#AA  BB" := by decide
example : Label.normalize_color (pyStr "  ") = pyStr "#" := by decide
example : Label.normalize_color (pyStr "#") = pyStr "#" := by decide

end Scratch2

/-! ## List-level helper lemmas for strip/upper -/

theorem dropWhile_eq_self_of_head (p : Char → Bool) (l : List Char)
    (h : ∀ c, l.head? = some c → p c = false) : l.dropWhile p = l := by
  cases l with
  | nil => rfl
  | cons a t => simp [List.dropWhile_cons, h a rfl]

theorem head?_dropWhile_false (p : Char → Bool) (l : List Char) :
    ∀ c, (l.dropWhile p).head? = some c → p c = false := by
  induction l with
  | nil =>
    intro c hc
    simp at hc
  | cons a t ih =>
    intro c hc
    rw [List.dropWhile_cons] at hc
    by_cases h : p a = true
    · rw [if_pos h] at hc
      exact ih c hc
    · rw [if_neg h] at hc
      obtain rfl : a = c := by simpa using hc
      revert h
      cases p a <;> simp

theorem pyStrip_getLast_false (s : List Char) :
    ∀ c, (pyStrip s).getLast? = some c → isPySpace c = false := by
  intro c hc
  unfold pyStrip at hc
  rw [List.getLast?_reverse] at hc
  exact head?_dropWhile_false _ _ c hc

theorem pyStrip_eq_self (l : List Char)
    (hh : ∀ c, l.head? = some c → isPySpace c = false)
    (hl : ∀ c, l.getLast? = some c → isPySpace c = false) : pyStrip l = l := by
  unfold pyStrip
  rw [dropWhile_eq_self_of_head _ _ hh,
    dropWhile_eq_self_of_head _ _
      (fun c hc => hl c (by rwa [List.head?_reverse] at hc)),
    List.reverse_reverse]

theorem pyUpper_idem (l : List Char) : pyUpper (pyUpper l) = pyUpper l := by
  unfold pyUpper
  rw [List.map_map]
  exact List.map_congr_left (fun a _ => toUpper_idem a)

namespace Label

theorem expand4_length_ne (l : List Char) (h : l.length ≠ 4) : expand4 l = l := by
  rcases l with _ | ⟨x1, _ | ⟨x2, _ | ⟨x3, _ | ⟨x4, _ | ⟨x5, t⟩⟩⟩⟩⟩
  · rfl
  · rfl
  · rfl
  · rfl
  · simp at h
  · rfl

end Label

namespace Label

/-- Shape and invariance properties of the `normalize_color` pipeline after
the strip step: the result starts with `#`, is a fixed point of `pyUpper`,
never has length 4, and does not end in whitespace. -/
theorem norm_core_out (st : List Char)
    (hstl : ∀ c, st.getLast? = some c → isPySpace c = false) :
    (∃ w, expand4 (if (pyUpper st).head? = some '#' then pyUpper st
        else '#' :: pyUpper st) = '#' :: w) ∧
      pyUpper (expand4 (if (pyUpper st).head? = some '#' then pyUpper st
        else '#' :: pyUpper st)) =
        expand4 (if (pyUpper st).head? = some '#' then pyUpper st
          else '#' :: pyUpper st) ∧
      (expand4 (if (pyUpper st).head? = some '#' then pyUpper st
        else '#' :: pyUpper st)).length ≠ 4 ∧
      (∀ c, (expand4 (if (pyUpper st).head? = some '#' then pyUpper st
        else '#' :: pyUpper st)).getLast? = some c → isPySpace c = false) := by
  have ht_upper : pyUpper (pyUpper st) = pyUpper st := pyUpper_idem st
  have ht_last : ∀ c, (pyUpper st).getLast? = some c → isPySpace c = false := by
    intro c hc
    unfold pyUpper at hc
    rw [List.getLast?_map] at hc
    cases hst0 : st.getLast? with
    | none => rw [hst0] at hc; simp at hc
    | some c0 =>
      rw [hst0] at hc
      simp only [Option.map] at hc
      have hcc : c = Char.toUpper c0 := by
        cases hc
        rfl
      rw [hcc, isPySpace_toUpper]
      exact hstl c0 hst0
  -- name the prefixed string
  set u := (if (pyUpper st).head? = some '#' then pyUpper st
    else '#' :: pyUpper st) with hu
  have hu_shape : ∃ w, u = '#' :: w := by
    rw [hu]
    by_cases hh : (pyUpper st).head? = some '#'
    · rw [if_pos hh]
      cases hps : pyUpper st with
      | nil => rw [hps] at hh; simp at hh
      | cons a r =>
        rw [hps] at hh
        simp only [List.head?_cons, Option.some.injEq] at hh
        exact ⟨r, by rw [hh]⟩
    · exact ⟨pyUpper st, by rw [if_neg hh]⟩
  have hu_upper : pyUpper u = u := by
    rw [hu]
    by_cases hh : (pyUpper st).head? = some '#'
    · rw [if_pos hh]
      exact ht_upper
    · rw [if_neg hh]
      show pyUpper ('#' :: pyUpper st) = '#' :: pyUpper st
      unfold pyUpper
      rw [List.map_cons]
      have : Char.toUpper '#' = '#' := by decide
      rw [this]
      exact congrArg _ ht_upper
  have hu_last : ∀ c, u.getLast? = some c → isPySpace c = false := by
    rw [hu]
    by_cases hh : (pyUpper st).head? = some '#'
    · rw [if_pos hh]
      exact ht_last
    · rw [if_neg hh]
      intro c hc
      cases hps : pyUpper st with
      | nil =>
        rw [hps] at hc
        simp only [List.getLast?] at hc
        have : c = '#' := by
          cases hc
          rfl
        rw [this]
        decide
      | cons a r =>
        rw [hps] at hc
        rw [List.getLast?_cons_cons] at hc
        rw [← hps] at hc
        exact ht_last c hc
  clear_value u
  clear hu ht_upper ht_last
  obtain ⟨w, rfl⟩ := hu_shape
  rcases w with _ | ⟨a, _ | ⟨b, _ | ⟨c, _ | ⟨d, rest⟩⟩⟩⟩
  · -- u = ['#']
    refine ⟨⟨[], rfl⟩, hu_upper, by simp [expand4], hu_last⟩
  · refine ⟨⟨[a], rfl⟩, hu_upper, by simp [expand4], hu_last⟩
  · refine ⟨⟨[a, b], rfl⟩, hu_upper, by simp [expand4], hu_last⟩
  · -- u = ['#', a, b, c] : the expansion branch
    have hexp : expand4 ['#', a, b, c] = ['#', a, a, b, b, c, c] := rfl
    rw [hexp]
    have hcomp : Char.toUpper a = a ∧ Char.toUpper b = b ∧ Char.toUpper c = c := by
      have := hu_upper
      unfold pyUpper at this
      simp only [List.map_cons, List.map_nil, List.cons.injEq, List.nil_eq] at this
      tauto
    refine ⟨⟨[a, a, b, b, c, c], rfl⟩, ?_, by simp, ?_⟩
    · unfold pyUpper
      simp only [List.map_cons, List.map_nil]
      have hh : Char.toUpper '#' = '#' := by decide
      rw [hh, hcomp.1, hcomp.2.1, hcomp.2.2]
    · intro e he
      have h1 : (['#', a, a, b, b, c, c] : List Char).getLast? = some c := by
        simp [List.getLast?]
      rw [h1] at he
      have h2 : (['#', a, b, c] : List Char).getLast? = some c := by
        simp [List.getLast?]
      have := hu_last c h2
      cases he
      assumption
  · -- length ≥ 5
    have hlen : ('#' :: a :: b :: c :: d :: rest).length ≠ 4 := by
      simp
    rw [expand4_length_ne _ hlen]
    exact ⟨⟨a :: b :: c :: d :: rest, rfl⟩, hu_upper, hlen, hu_last⟩

end Label

namespace Label

theorem normalize_color_out (color : List Char) (h : color ≠ []) :
    (∃ w, normalize_color color = '#' :: w) ∧
      pyUpper (normalize_color color) = normalize_color color ∧
      (normalize_color color).length ≠ 4 ∧
      (∀ c, (normalize_color color).getLast? = some c → isPySpace c = false) := by
  unfold normalize_color
  rw [if_neg h]
  exact norm_core_out (pyStrip color) (pyStrip_getLast_false color)

theorem normalize_color_fixed (s : List Char) :
    normalize_color (normalize_color s) = normalize_color s := by
  by_cases h : s = []
  · subst h
    rfl
  · obtain ⟨⟨w, hw⟩, hupper, hlen, hlast⟩ := normalize_color_out s h
    have hr_ne : normalize_color s ≠ [] := by
      rw [hw]
      simp
    have hhead : ∀ c, (normalize_color s).head? = some c → isPySpace c = false := by
      intro c hc
      rw [hw] at hc
      simp only [List.head?_cons, Option.some.injEq] at hc
      rw [← hc]
      decide
    have hstrip : pyStrip (normalize_color s) = normalize_color s :=
      pyStrip_eq_self _ hhead hlast
    conv_lhs => rw [normalize_color]
    rw [if_neg hr_ne, hstrip, hupper]
    show expand4 (if (normalize_color s).head? = some '#' then normalize_color s
      else '#' :: normalize_color s) = normalize_color s
    have hh : (normalize_color s).head? = some '#' := by
      rw [hw]
      rfl
    rw [if_pos hh]
    exact expand4_length_ne _ hlen

end Label

namespace Label

/-- The code's normalization agrees everywhere with the amended description
(expansion not restricted to hex digits): stripping first and uppercasing
before or after prepending `#` commute. -/
theorem normalize_color_eq_amended (color : List Char) :
    normalize_color color = claimNormalizeColorAmended color := by
  by_cases h : color = []
  · subst h
    rfl
  · unfold normalize_color claimNormalizeColorAmended
    rw [if_neg h, if_neg h]
    show expand4 (if (pyUpper (pyStrip color)).head? = some '#'
        then pyUpper (pyStrip color) else '#' :: pyUpper (pyStrip color)) =
      expand4 (pyUpper (if (pyStrip color).head? = some '#'
        then pyStrip color else '#' :: pyStrip color))
    congr 1
    generalize pyStrip color = t
    by_cases hh : t.head? = some '#'
    · rw [if_pos hh]
      have hh2 : (pyUpper t).head? = some '#' := by
        unfold pyUpper
        rw [List.head?_map, hh]
        decide
      rw [if_pos hh2]
    · rw [if_neg hh]
      have hh2 : ¬(pyUpper t).head? = some '#' := by
        intro hcontra
        unfold pyUpper at hcontra
        rw [List.head?_map] at hcontra
        cases ht : t.head? with
        | none => rw [ht] at hcontra; simp at hcontra
        | some a =>
          rw [ht] at hcontra
          simp only [Option.map, Option.some.injEq] at hcontra
          exact hh (by rw [ht, (toUpper_eq_hash_iff a).mp hcontra])
      rw [if_neg hh2]
      unfold pyUpper
      rw [List.map_cons]
      rw [show Char.toUpper '#' = '#' from by decide]

end Label

/-! ## Label rows and the label store (`app/models/label.py`,
`app/repositories/label_repository.py`) -/

/-- Typed domain failures of the label component; each constructor mirrors
one `ErrorMessages` constant raised by `app/models/label.py` or
`app/services/label_service.py` (the service wraps the model's
`ValueError`s in `ValidationError`, preserving the message, so the message
constant identifies the failure). -/
inductive LabelErr where
  | labelNotFound
  | duplicateLabel
  | circularReference
  | hierarchyTooDeep
  | systemLabelReadonly
  | cannotDeleteLabelWithChildren
  | labelNameRequired
  | labelNameTooLong
  | labelColorRequired
  | invalidHexColor
deriving Repr, DecidableEq

/-- One persisted label row.  The ORM's `parent`/`children` relationships
are recovered from `parent_id` back-references over the store. -/
structure LabelRow where
  label_id : Nat
  user_id : Nat
  parent_id : Option Nat
  name : List Char
  color : List Char
  system_label : Bool
deriving Repr, DecidableEq

/-- The labels table: the session's view of all label rows. -/
abbrev LabelStore := List LabelRow

namespace LabelRepository

/-- `LabelRepository.find_by_id` (`session.get(Label, label_id)`). -/
def find_by_id (s : LabelStore) (id : Nat) : Option LabelRow :=
  s.find? (fun r => r.label_id == id)

/-- `LabelRepository.find_by_user_and_name_and_parent`: filter by user,
parent and case-insensitive name (`func.lower`), `.first()`. -/
def find_by_user_and_name_and_parent (s : LabelStore) (uid : Nat)
    (name : List Char) (pid : Option Nat) : Option LabelRow :=
  s.find? (fun r =>
    r.user_id == uid && r.parent_id == pid && pyLower r.name == pyLower name)

end LabelRepository

namespace Label

/-- The ORM `children` relationship: rows whose `parent_id` points here. -/
def childrenOf (s : LabelStore) (id : Nat) : List LabelRow :=
  s.filter (fun r => r.parent_id == some id)

/-- `Label.can_be_deleted`: not a system label and no children. -/
def can_be_deleted (s : LabelStore) (l : LabelRow) : Bool :=
  if l.system_label then false
  else (childrenOf s l.label_id).length == 0

/-- The walk of `Label.get_ancestors`: it appends each parent row and stops
either at a root or defensively once more than `MAX_HIERARCHY_DEPTH` (5)
rows have been collected, i.e. after at most 6 rows; fuel 6 reproduces the
break exactly.  A dangling `parent_id` resolves, like the ORM relationship,
to no parent. -/
def ancestorRows (s : LabelStore) : Nat → Option Nat → List LabelRow
  | _, none => []
  | 0, some _ => []
  | f + 1, some cid =>
    match LabelRepository.find_by_id s cid with
    | none => []
    | some row => row :: ancestorRows s f row.parent_id

/-- `Label.get_ancestors` from `app/models/label.py`. -/
def get_ancestors (s : LabelStore) (l : LabelRow) : List LabelRow :=
  ancestorRows s 6 l.parent_id

/-- The loop of `Label.get_depth`: one increment per parent row, breaking
once `depth > 5`, i.e. after at most 6 increments — the same truncated walk
as `ancestorRows`. -/
def depthSteps (s : LabelStore) : Nat → Option Nat → Nat
  | _, none => 0
  | 0, some _ => 0
  | f + 1, some cid =>
    match LabelRepository.find_by_id s cid with
    | none => 0
    | some row => 1 + depthSteps s f row.parent_id

/-- `Label.get_depth` from `app/models/label.py` (root labels have depth 0;
the defensive break caps the result at 6 on malformed data). -/
def get_depth (s : LabelStore) (l : LabelRow) : Nat :=
  depthSteps s 6 l.parent_id

/-- `Label.is_ancestor_of`: `self in other.get_ancestors()`.  Python's `in`
uses object identity here; under the session identity map rows with equal
primary keys are the same object, so comparison by `label_id` is faithful. -/
def is_ancestor_of (s : LabelStore) (l other : LabelRow) : Bool :=
  (get_ancestors s other).any (fun r => r.label_id == l.label_id)

/-- `Label.validate_hierarchy_depth`: fails when
`get_depth() >= MAX_HIERARCHY_DEPTH` (= 5). -/
def validate_hierarchy_depth (s : LabelStore) (l : LabelRow) :
    Except LabelErr Unit :=
  if get_depth s l ≥ 5 then .error .hierarchyTooDeep else .ok ()

/-- `Label.validate_name`: empty/all-whitespace name is rejected, then the
trimmed name must be at most 100 characters. -/
def validate_name (l : LabelRow) : Except LabelErr Unit :=
  if l.name = [] ∨ pyStrip l.name = [] then .error .labelNameRequired
  else if (pyStrip l.name).length > 100 then .error .labelNameTooLong
  else .ok ()

/-- `Label.validate_color`: empty color is rejected, the color is replaced
by its normalization, and the normalized value must match `^#[0-9A-F]{6}$`.
Returns the normalized color that the method writes back to `self.color`. -/
def validate_color (l : LabelRow) : Except LabelErr (List Char) :=
  if l.color = [] then .error .labelColorRequired
  else
    let c := normalize_color l.color
    if is_valid_hex_color c then .ok c else .error .invalidHexColor

/-- Modelled from the spec: `Label.get_subtree_height` is called by
`LabelService.update_label` (`app/services/label_service.py`, line 135) but
is not defined in any file under `src/`.  Per the spec's update protocol —
`new_parent.depth + 1 + subtree_height(label) >= MAX_DEPTH` fails
`HierarchyTooDeep` — it is the height of the subtree rooted at the label:
0 for a leaf, one more than the tallest child otherwise.  Children are
recovered through `parent_id` back-references; on acyclic data any fuel of
at least the store size computes the true height. -/
def subtreeHeightAux (s : LabelStore) : Nat → Nat → Nat
  | 0, _ => 0
  | f + 1, id =>
    (childrenOf s id).foldr
      (fun c acc => max acc (1 + subtreeHeightAux s f c.label_id)) 0

/-- Modelled from the spec: see `subtreeHeightAux`. -/
def get_subtree_height (s : LabelStore) (l : LabelRow) : Nat :=
  subtreeHeightAux s s.length l.label_id

end Label

deriving instance DecidableEq for Except

/-! ## In-memory label objects for `validate_no_circular_reference` -/

/-- A label object with its loaded `children` subtree, as
`Label.get_descendants` traverses it.  The inductive structure mirrors the
in-memory object graph (the ORM materializes `children` as object lists;
`get_descendants` recurses through them with no cycle guard, so on the
acyclic graphs it is actually run on the recursion is structural). -/
inductive LabelNode where
  | node (label_id : Nat) (parent_id : Option Nat) (children : List LabelNode)

def LabelNode.label_id : LabelNode → Nat
  | .node i _ _ => i

def LabelNode.parent_id : LabelNode → Option Nat
  | .node _ p _ => p

def LabelNode.children : LabelNode → List LabelNode
  | .node _ _ cs => cs

/-- The loop body of `Label.get_descendants`: for each child, append the
child and then all of the child's descendants (pre-order). -/
def LabelNode.descList : List LabelNode → List LabelNode
  | [] => []
  | .node i p cs :: rest => .node i p cs :: (descList cs ++ descList rest)

/-- `Label.get_descendants` from `app/models/label.py`. -/
def LabelNode.get_descendants (l : LabelNode) : List LabelNode :=
  LabelNode.descList l.children

/-- `Label.validate_no_circular_reference` from `app/models/label.py`: an
absent argument is replaced by the label's own `parent_id`; an absent
effective id is a no-op; the label's own id or any descendant id fails. -/
def LabelNode.validate_no_circular_reference (l : LabelNode)
    (new_parent_id : Option Nat) : Except LabelErr Unit :=
  let npid := new_parent_id.or l.parent_id
  match npid with
  | none => .ok ()
  | some pid =>
    if pid = l.label_id then .error .circularReference
    else if (l.get_descendants).any (fun d => d.label_id == pid) then
      .error .circularReference
    else .ok ()

section Scratch3

example :
    (LabelNode.node 1 (some 1) []).validate_no_circular_reference none =
      .error .circularReference := by
  simp [LabelNode.validate_no_circular_reference, LabelNode.get_descendants,
    LabelNode.descList, LabelNode.parent_id, LabelNode.label_id,
    LabelNode.children]
example :
    (LabelNode.node 1 none []).validate_no_circular_reference none = .ok () := by
  simp [LabelNode.validate_no_circular_reference, LabelNode.parent_id]
example :
    (LabelNode.node 1 none
      [.node 2 (some 1) [.node 3 (some 2) []]]).validate_no_circular_reference
        (some 3) = .error .circularReference := by
  simp [LabelNode.validate_no_circular_reference, LabelNode.get_descendants,
    LabelNode.descList, LabelNode.parent_id, LabelNode.label_id,
    LabelNode.children]
example :
    (LabelNode.node 1 none
      [.node 2 (some 1) []]).validate_no_circular_reference (some 9) =
      .ok () := by
  simp [LabelNode.validate_no_circular_reference, LabelNode.get_descendants,
    LabelNode.descList, LabelNode.parent_id, LabelNode.label_id,
    LabelNode.children]

end Scratch3

/-! ## Label service (`app/services/label_service.py`) -/

namespace LabelService

/-- `LabelService.get_label`: resolve by id and require ownership; a missing
row and a foreign owner both surface as `LabelNotFound`. -/
def get_label (s : LabelStore) (uid lid : Nat) : Except LabelErr LabelRow :=
  match LabelRepository.find_by_id s lid with
  | none => .error .labelNotFound
  | some l => if l.user_id ≠ uid then .error .labelNotFound else .ok l

/-- The request body of a label creation (`name`, `color`, `parent_id`). -/
structure CreateLabelData where
  name : List Char
  color : List Char
  parent_id : Option Nat

/-- `LabelService.create_label`: duplicate check, parent resolution (ids are
positive, so Python's `if parent_id:` truthiness test is presence), then
`validate_name`, `validate_color`, `validate_hierarchy_depth` on the new
object, and save.  `fresh_id` is the autoincrement key the database would
assign; the returned store is the session after commit. -/
def create_label (s : LabelStore) (uid fresh_id : Nat) (d : CreateLabelData) :
    Except LabelErr (LabelStore × LabelRow) :=
  if (LabelRepository.find_by_user_and_name_and_parent s uid d.name
      d.parent_id).isSome then
    .error .duplicateLabel
  else
    let parentCheck : Except LabelErr Unit :=
      match d.parent_id with
      | some pid => (get_label s uid pid).map (fun _ => ())
      | none => .ok ()
    match parentCheck with
    | .error e => .error e
    | .ok _ =>
      let row : LabelRow :=
        { label_id := fresh_id, user_id := uid, parent_id := d.parent_id,
          name := d.name, color := d.color, system_label := false }
      match Label.validate_name row with
      | .error e => .error e
      | .ok _ =>
        match Label.validate_color row with
        | .error e => .error e
        | .ok c2 =>
          let row2 := { row with color := c2 }
          match Label.validate_hierarchy_depth s row2 with
          | .error e => .error e
          | .ok _ => .ok (s ++ [row2], row2)

/-- A label update request: `parent_update = some v` means the key
`parent_id` is present with value `v` (`some npid` is Python's truthy
branch, `none` the explicit null that detaches); `name` and `color` are the
optional remaining keys. -/
structure UpdateLabelData where
  parent_update : Option (Option Nat)
  name : Option (List Char)
  color : Option (List Char)

/-- `LabelService.update_label`: ownership check, system-label rejection,
then parent change (circular-reference and depth checks), name change
(duplicate check against the post-change parent, excluding the label
itself), color assignment, final `validate_name`/`validate_color`, save. -/
def update_label (s : LabelStore) (uid lid : Nat) (d : UpdateLabelData) :
    Except LabelErr LabelStore :=
  match get_label s uid lid with
  | .error e => .error e
  | .ok label =>
    if label.system_label then .error .systemLabelReadonly
    else
      let step1 : Except LabelErr LabelRow :=
        match d.parent_update with
        | none => .ok label
        | some none => .ok { label with parent_id := none }
        | some (some npid) =>
          match get_label s uid npid with
          | .error e => .error e
          | .ok new_parent =>
            if Label.is_ancestor_of s label new_parent ||
                label.label_id == npid then
              .error .circularReference
            else if Label.get_depth s new_parent + 1 +
                Label.get_subtree_height s label ≥ 5 then
              .error .hierarchyTooDeep
            else .ok { label with parent_id := some npid }
      match step1 with
      | .error e => .error e
      | .ok label1 =>
        let step2 : Except LabelErr LabelRow :=
          match d.name with
          | none => .ok label1
          | some nm =>
            match LabelRepository.find_by_user_and_name_and_parent s uid nm
                label1.parent_id with
            | some existing =>
              if existing.label_id ≠ lid then .error .duplicateLabel
              else .ok { label1 with name := nm }
            | none => .ok { label1 with name := nm }
        match step2 with
        | .error e => .error e
        | .ok label2 =>
          let label3 :=
            match d.color with
            | some c => { label2 with color := c }
            | none => label2
          match Label.validate_name label3 with
          | .error e => .error e
          | .ok _ =>
            match Label.validate_color label3 with
            | .error e => .error e
            | .ok c4 =>
              let label4 := { label3 with color := c4 }
              .ok (s.map (fun r => if r.label_id == lid then label4 else r))

/-- `LabelService.delete_label`: ownership check, then `can_be_deleted`;
a system label fails `SystemLabelReadonly`, a label with children fails
`CannotDeleteLabelWithChildren`, otherwise the row is deleted.  The ORM
cascade to children is irrelevant on this path, which is only reached with
no children. -/
def delete_label (s : LabelStore) (uid lid : Nat) : Except LabelErr LabelStore :=
  match get_label s uid lid with
  | .error e => .error e
  | .ok label =>
    if ¬ Label.can_be_deleted s label then
      if label.system_label then .error .systemLabelReadonly
      else .error .cannotDeleteLabelWithChildren
    else .ok (s.filter (fun r => r.label_id != lid))

end LabelService

section Scratch4

example :
    LabelService.delete_label
      [⟨1, 7, none, pyStr "A", pyStr "#AABBCC", true⟩] 7 1 =
      .error .systemLabelReadonly := by decide
example :
    LabelService.delete_label
      [⟨1, 7, none, pyStr "A", pyStr "#AABBCC", false⟩,
       ⟨2, 7, some 1, pyStr "B", pyStr "#AABBCC", false⟩] 7 1 =
      .error .cannotDeleteLabelWithChildren := by decide
example :
    LabelService.delete_label
      [⟨1, 7, none, pyStr "A", pyStr "#AABBCC", false⟩] 7 1 = .ok [] := by decide

end Scratch4

/-! ## Subscriptions (`app/models/subscription.py`,
`app/services/subscription_service.py`) -/

/-- Typed domain failures of the subscription component, mirroring the
`ErrorMessages` constants used by the model and service. -/
inductive SubErr where
  | duplicateSubscription
  | priceMustBePositive
  | unsupportedCurrency
  | invalidStatus
  | invalidPaymentFrequency
  | unknownPaymentFrequency
  | nextPaymentBeforeInitial
  | subscriptionNotFound
  | labelNotFoundOrDenied
deriving Repr, DecidableEq

namespace PaymentFrequency

def monthly : List Char := pyStr "monthly"

def quarterly : List Char := pyStr "quarterly"

def yearly : List Char := pyStr "yearly"

/-- `PaymentFrequency.is_valid` from `app/constants.py`. -/
def is_valid (f : List Char) : Bool :=
  f == monthly || f == quarterly || f == yearly

end PaymentFrequency

namespace CurrencyConstants

/-- `CurrencyConstants.is_valid`: `currency.upper() in ["USD", "JPY"]`. -/
def is_valid (c : List Char) : Bool :=
  pyUpper c == pyStr "USD" || pyUpper c == pyStr "JPY"

end CurrencyConstants

namespace SubscriptionStatus

/-- `SubscriptionStatus.is_valid` from `app/constants.py`. -/
def is_valid (st : List Char) : Bool :=
  st == pyStr "trial" || st == pyStr "active" || st == pyStr "suspended" ||
    st == pyStr "cancelled" || st == pyStr "expired"

end SubscriptionStatus

/-- One subscription row.  `price` is modelled as an exact rational (the
claims under check concern which arithmetic operation is applied, and their
numeric instances are exact in binary floating point as well).  `labels`
holds the ids of the associated labels. -/
structure Subscription where
  subscription_id : Nat
  user_id : Nat
  name : List Char
  price : ℚ
  currency : List Char
  initial_payment_date : PyDate
  next_payment_date : PyDate
  payment_frequency : List Char
  payment_method : List Char
  status : List Char
  labels : List Nat
deriving DecidableEq

namespace Subscription

/-- `Subscription.validate_price`. -/
def validate_price (s : Subscription) : Except SubErr Unit :=
  if s.price ≤ 0 then .error .priceMustBePositive else .ok ()

/-- `Subscription.validate_currency`: a truthy (non-empty) currency is first
replaced by its uppercase form, then membership in the supported set is
required.  Returns the subscription with the normalized currency. -/
def validate_currency (s : Subscription) : Except SubErr Subscription :=
  let s1 := if s.currency = [] then s else { s with currency := pyUpper s.currency }
  if CurrencyConstants.is_valid s1.currency then .ok s1
  else .error .unsupportedCurrency

/-- `Subscription.validate_status`. -/
def validate_status (s : Subscription) : Except SubErr Unit :=
  if SubscriptionStatus.is_valid s.status then .ok () else .error .invalidStatus

/-- `Subscription.validate_payment_frequency`. -/
def validate_payment_frequency (s : Subscription) : Except SubErr Unit :=
  if PaymentFrequency.is_valid s.payment_frequency then .ok ()
  else .error .invalidPaymentFrequency

/-- `Subscription.validate_dates`: `next_payment_date < initial_payment_date`
is rejected. -/
def validate_dates (s : Subscription) : Except SubErr Unit :=
  if dateLtb s.next_payment_date s.initial_payment_date then
    .error .nextPaymentBeforeInitial
  else .ok ()

/-- `Subscription.monthly_cost`. -/
def monthly_cost (s : Subscription) : Except SubErr ℚ :=
  if s.payment_frequency == PaymentFrequency.monthly then .ok s.price
  else if s.payment_frequency == PaymentFrequency.quarterly then
    .ok (s.price / 3)
  else if s.payment_frequency == PaymentFrequency.yearly then
    .ok (s.price / 12)
  else .error .unknownPaymentFrequency

/-- `Subscription.yearly_cost`. -/
def yearly_cost (s : Subscription) : Except SubErr ℚ :=
  if s.payment_frequency == PaymentFrequency.monthly then .ok (s.price * 12)
  else if s.payment_frequency == PaymentFrequency.quarterly then
    .ok (s.price * 4)
  else if s.payment_frequency == PaymentFrequency.yearly then .ok s.price
  else .error .unknownPaymentFrequency

/-- `Subscription.calculate_next_payment_date`: dispatch on the frequency,
defaulting `from_date` to the current `next_payment_date`. -/
def calculate_next_payment_date (s : Subscription) (from_date : Option PyDate) :
    Except SubErr PyDate :=
  let fd := from_date.getD s.next_payment_date
  if s.payment_frequency == PaymentFrequency.monthly then .ok (add_months fd 1)
  else if s.payment_frequency == PaymentFrequency.quarterly then
    .ok (add_months fd 3)
  else if s.payment_frequency == PaymentFrequency.yearly then
    .ok (add_months fd 12)
  else .error .unknownPaymentFrequency

end Subscription

namespace SubscriptionRepository

/-- `SubscriptionRepository.find_by_id`. -/
def find_by_id (store : List Subscription) (sid : Nat) : Option Subscription :=
  store.find? (fun r => r.subscription_id == sid)

/-- `SubscriptionRepository.find_by_user_and_name`: case-insensitive name
match (`ilike` with no wildcard). -/
def find_by_user_and_name (store : List Subscription) (uid : Nat)
    (name : List Char) : Option Subscription :=
  store.find? (fun r => r.user_id == uid && pyLower r.name == pyLower name)

end SubscriptionRepository

namespace SubscriptionService

/-- `SubscriptionService.get_subscription`: resolve and ownership-check. -/
def get_subscription (store : List Subscription) (uid sid : Nat) :
    Except SubErr Subscription :=
  match SubscriptionRepository.find_by_id store sid with
  | none => .error .subscriptionNotFound
  | some sub =>
    if sub.user_id ≠ uid then .error .subscriptionNotFound else .ok sub

/-- The request body of a subscription creation.  `next_payment_date` is the
value a caller might try to supply for that column (normally absent). -/
structure SubCreateData where
  name : List Char
  price : ℚ
  currency : List Char
  initial_payment_date : PyDate
  next_payment_date : Option PyDate
  payment_frequency : List Char
  payment_method : List Char
  status : List Char

/-- `SubscriptionService.create_subscription`: duplicate check, construct,
validate price/currency/status/frequency, compute `next_payment_date` from
`initial_payment_date`, validate the date order, save.  A caller-supplied
`next_payment_date` is written to the new object but unconditionally
overwritten before it is ever read. -/
def create_subscription (store : List Subscription) (uid fresh_id : Nat)
    (d : SubCreateData) : Except SubErr Subscription :=
  if (SubscriptionRepository.find_by_user_and_name store uid d.name).isSome then
    .error .duplicateSubscription
  else
    let s0 : Subscription :=
      { subscription_id := fresh_id, user_id := uid, name := d.name,
        price := d.price, currency := d.currency,
        initial_payment_date := d.initial_payment_date,
        next_payment_date := d.next_payment_date.getD d.initial_payment_date,
        payment_frequency := d.payment_frequency,
        payment_method := d.payment_method, status := d.status, labels := [] }
    match Subscription.validate_price s0 with
    | .error e => .error e
    | .ok _ =>
      match Subscription.validate_currency s0 with
      | .error e => .error e
      | .ok s1 =>
        match Subscription.validate_status s1 with
        | .error e => .error e
        | .ok _ =>
          match Subscription.validate_payment_frequency s1 with
          | .error e => .error e
          | .ok _ =>
            match Subscription.calculate_next_payment_date s1
                (some d.initial_payment_date) with
            | .error e => .error e
            | .ok next =>
              let s2 := { s1 with next_payment_date := next }
              match Subscription.validate_dates s2 with
              | .error e => .error e
              | .ok _ => .ok s2

/-- The label-resolution loop of `update_subscription`: each id must resolve
to a label of the requesting user. -/
def resolveLabels (lstore : LabelStore) (uid : Nat) :
    List Nat → Except SubErr (List Nat)
  | [] => .ok []
  | id :: rest =>
    match LabelRepository.find_by_id lstore id with
    | none => .error .labelNotFoundOrDenied
    | some l =>
      if l.user_id ≠ uid then .error .labelNotFoundOrDenied
      else
        match resolveLabels lstore uid rest with
        | .error e => .error e
        | .ok xs => .ok (id :: xs)

/-- A subscription update request; `some v` means the key is present. -/
structure SubUpdateData where
  labels : Option (List Nat)
  name : Option (List Char)
  price : Option ℚ
  currency : Option (List Char)
  status : Option (List Char)
  payment_frequency : Option (List Char)
  initial_payment_date : Option PyDate
  next_payment_date : Option PyDate
  payment_method : Option (List Char)

/-- `SubscriptionService.update_subscription`: resolve and ownership-check,
replace the label associations, duplicate-name check (only when a truthy new
name differs case-insensitively from the current one), apply every supplied
field (the generic `setattr` loop — including a caller-supplied
`next_payment_date`), re-validate price/currency/status, recompute
`next_payment_date` from `initial_payment_date` when `payment_frequency` or
`initial_payment_date` is among the supplied keys, validate the date order,
save. -/
def update_subscription (store : List Subscription) (lstore : LabelStore)
    (uid sid : Nat) (d : SubUpdateData) : Except SubErr Subscription :=
  match get_subscription store uid sid with
  | .error e => .error e
  | .ok sub =>
    let labelsRes : Except SubErr (List Nat) :=
      match d.labels with
      | none => .ok sub.labels
      | some ids => resolveLabels lstore uid ids
    match labelsRes with
    | .error e => .error e
    | .ok newLabels =>
      let sub0 := { sub with labels := newLabels }
      let dupCheck : Except SubErr Unit :=
        match d.name with
        | some nm =>
          if nm ≠ [] ∧ pyLower nm ≠ pyLower sub0.name then
            match SubscriptionRepository.find_by_user_and_name store uid nm with
            | some existing =>
              if existing.subscription_id ≠ sid then
                .error .duplicateSubscription
              else .ok ()
            | none => .ok ()
          else .ok ()
        | none => .ok ()
      match dupCheck with
      | .error e => .error e
      | .ok _ =>
        let sub1 : Subscription :=
          { sub0 with
            name := d.name.getD sub0.name,
            price := d.price.getD sub0.price,
            currency := d.currency.getD sub0.currency,
            status := d.status.getD sub0.status,
            payment_frequency := d.payment_frequency.getD sub0.payment_frequency,
            initial_payment_date :=
              d.initial_payment_date.getD sub0.initial_payment_date,
            next_payment_date := d.next_payment_date.getD sub0.next_payment_date,
            payment_method := d.payment_method.getD sub0.payment_method }
        match Subscription.validate_price sub1 with
        | .error e => .error e
        | .ok _ =>
          match Subscription.validate_currency sub1 with
          | .error e => .error e
          | .ok sub2 =>
            match Subscription.validate_status sub2 with
            | .error e => .error e
            | .ok _ =>
              let recompute : Except SubErr Subscription :=
                if d.payment_frequency.isSome ||
                    d.initial_payment_date.isSome then
                  match Subscription.calculate_next_payment_date sub2
                      (some sub2.initial_payment_date) with
                  | .error e => .error e
                  | .ok next => .ok { sub2 with next_payment_date := next }
                else .ok sub2
              match recompute with
              | .error e => .error e
              | .ok sub3 =>
                match Subscription.validate_dates sub3 with
                | .error e => .error e
                | .ok _ => .ok sub3

end SubscriptionService

section Scratch5

example :
    Subscription.monthly_cost
      ⟨1, 7, pyStr "a", 120, pyStr "USD", ⟨2024, 1, 1⟩, ⟨2025, 1, 1⟩,
        pyStr "yearly", pyStr "paypal", pyStr "active", []⟩ = .ok 10 := by
  rw [Subscription.monthly_cost]
  norm_num
  decide

example :
    Subscription.yearly_cost
      ⟨1, 7, pyStr "a", 10, pyStr "USD", ⟨2024, 1, 1⟩, ⟨2024, 2, 1⟩,
        pyStr "monthly", pyStr "paypal", pyStr "active", []⟩ = .ok 120 := by
  rw [Subscription.yearly_cost]
  norm_num
  decide

example :
    (SubscriptionService.create_subscription [] 7 1
      ⟨pyStr "n", 10, pyStr "usd", ⟨2024, 1, 31⟩, none, pyStr "monthly",
        pyStr "paypal", pyStr "active"⟩).map
      (fun s => s.next_payment_date) = .ok ⟨2024, 2, 29⟩ := by
  rw [SubscriptionService.create_subscription]
  norm_num
  decide

end Scratch5

/-! ## Claim theorems -/

/-- C1: for every date `d` and months value `m ≥ 1`, `_add_months` first
advances the month by `m`, normalizing overflow by repeatedly subtracting 12
and incrementing the year (the normalized pair preserves the linear month
index and lands in `1..12`); if `d` is the last calendar day of its month
the result is the last calendar day of the target month, otherwise the day
is clamped to `min(day, last day of target month)`.  In particular
`2024-01-31 + 1 = 2024-02-29`, `2023-01-31 + 1 = 2023-02-28`, and
`2024-05-31 + 1 = 2024-06-30`. -/
theorem C1_add_months_month_end_rule (d : PyDate) (m : Nat) (hm : 1 ≤ m) :
    ((Subscription.normalizeYM d.year (d.month + m)).1 * 12 +
        (Subscription.normalizeYM d.year (d.month + m)).2 =
        d.year * 12 + (d.month + m) ∧
      1 ≤ (Subscription.normalizeYM d.year (d.month + m)).2 ∧
      (Subscription.normalizeYM d.year (d.month + m)).2 ≤ 12) ∧
    Subscription.add_months d m =
      (if Subscription.is_last_day_of_month d then
        PyDate.mk (Subscription.normalizeYM d.year (d.month + m)).1
          (Subscription.normalizeYM d.year (d.month + m)).2
          (monthrangeDays (Subscription.normalizeYM d.year (d.month + m)).1
            (Subscription.normalizeYM d.year (d.month + m)).2)
      else
        PyDate.mk (Subscription.normalizeYM d.year (d.month + m)).1
          (Subscription.normalizeYM d.year (d.month + m)).2
          (min d.day
            (monthrangeDays (Subscription.normalizeYM d.year (d.month + m)).1
              (Subscription.normalizeYM d.year (d.month + m)).2))) ∧
    Subscription.add_months ⟨2024, 1, 31⟩ 1 = ⟨2024, 2, 29⟩ ∧
    Subscription.add_months ⟨2023, 1, 31⟩ 1 = ⟨2023, 2, 28⟩ ∧
    Subscription.add_months ⟨2024, 5, 31⟩ 1 = ⟨2024, 6, 30⟩ := by
  refine ⟨?_, ?_, by decide, by decide, by decide⟩
  · have hs := Subscription.normalizeYM_spec d.year (d.month + m)
    exact ⟨hs.1, hs.2.2 (by omega), hs.2.1⟩
  · by_cases h : Subscription.is_last_day_of_month d = true
    · simp [Subscription.add_months, h]
    · simp only [Bool.not_eq_true] at h
      simp [Subscription.add_months, h]

theorem C1_witness :
    1 ≤ 1 ∧ Subscription.add_months ⟨2024, 1, 31⟩ 1 = ⟨2024, 2, 29⟩ :=
  ⟨by decide, (C1_add_months_month_end_rule ⟨2024, 1, 31⟩ 1 (by decide)).2.2.1⟩

/-- C7 counterexample: on input `"zzz"` (three non-hex letters) the code
expands to `"#ZZZZZZ"` although the claim's description — expansion only of
`'#'` followed by three hex digits — yields `"#ZZZ"`. -/
theorem C7_counterexample :
    Label.normalize_color (pyStr "zzz") = pyStr "#ZZZZZZ" ∧
    Label.claimNormalizeColor (pyStr "zzz") = pyStr "#ZZZ" ∧
    Label.normalize_color (pyStr "zzz") ≠
      Label.claimNormalizeColor (pyStr "zzz") := by
  refine ⟨by decide, by decide, by decide⟩

/-- C7 (amended): `normalize_color` trims, prefixes `#` when missing,
uppercases, and expands any 4-character result (`#` followed by any three
characters, hex or not) by doubling each character; empty input passes
through unchanged; with the claim's three examples. -/
theorem C7_normalize_color_description (s : List Char) :
    Label.normalize_color s = Label.claimNormalizeColorAmended s ∧
    Label.normalize_color (pyStr "#fff") = pyStr "#FFFFFF" ∧
    Label.normalize_color (pyStr "fff") = pyStr "#FFFFFF" ∧
    Label.normalize_color (pyStr "  #AbC  ") = pyStr "#AABBCC" ∧
    Label.normalize_color [] = [] :=
  ⟨Label.normalize_color_eq_amended s, by decide, by decide, by decide, rfl⟩

/-- C10: `normalize_color` is idempotent — its output (trimmed,
`#`-prefixed, uppercased, expanded) is a fixed point of the function. -/
theorem C10_normalize_color_idempotent (s : List Char) :
    Label.normalize_color (Label.normalize_color s) =
      Label.normalize_color s :=
  Label.normalize_color_fixed s

/-- C8: `monthly_cost` returns `price`, `price/3`, `price/12` for
monthly/quarterly/yearly and `yearly_cost` returns `price*12`, `price*4`,
`price`; any other frequency fails with `UnknownPaymentFrequency`; a yearly
subscription priced 120 has monthly cost 10 and a monthly subscription
priced 10 has yearly cost 120. -/
theorem C8_cost_conversions (s : Subscription) :
    (s.payment_frequency = PaymentFrequency.monthly →
      Subscription.monthly_cost s = .ok s.price ∧
      Subscription.yearly_cost s = .ok (s.price * 12)) ∧
    (s.payment_frequency = PaymentFrequency.quarterly →
      Subscription.monthly_cost s = .ok (s.price / 3) ∧
      Subscription.yearly_cost s = .ok (s.price * 4)) ∧
    (s.payment_frequency = PaymentFrequency.yearly →
      Subscription.monthly_cost s = .ok (s.price / 12) ∧
      Subscription.yearly_cost s = .ok s.price) ∧
    (PaymentFrequency.is_valid s.payment_frequency = false →
      Subscription.monthly_cost s = .error .unknownPaymentFrequency ∧
      Subscription.yearly_cost s = .error .unknownPaymentFrequency) ∧
    (s.payment_frequency = PaymentFrequency.yearly → s.price = 120 →
      Subscription.monthly_cost s = .ok 10) ∧
    (s.payment_frequency = PaymentFrequency.monthly → s.price = 10 →
      Subscription.yearly_cost s = .ok 120) := by
  have em : (PaymentFrequency.monthly == PaymentFrequency.monthly) = true := by
    decide
  have eq1 : (PaymentFrequency.quarterly == PaymentFrequency.monthly) = false := by
    decide
  have eq2 : (PaymentFrequency.quarterly == PaymentFrequency.quarterly) = true := by
    decide
  have ey1 : (PaymentFrequency.yearly == PaymentFrequency.monthly) = false := by
    decide
  have ey2 : (PaymentFrequency.yearly == PaymentFrequency.quarterly) = false := by
    decide
  have ey3 : (PaymentFrequency.yearly == PaymentFrequency.yearly) = true := by
    decide
  refine ⟨?_, ?_, ?_, ?_, ?_, ?_⟩
  · intro h
    constructor <;> simp [Subscription.monthly_cost, Subscription.yearly_cost,
      h, em]
  · intro h
    constructor <;> simp [Subscription.monthly_cost, Subscription.yearly_cost,
      h, eq1, eq2]
  · intro h
    constructor <;> simp [Subscription.monthly_cost, Subscription.yearly_cost,
      h, ey1, ey2, ey3]
  · intro h
    simp only [PaymentFrequency.is_valid, Bool.or_eq_false_iff] at h
    constructor <;> simp [Subscription.monthly_cost, Subscription.yearly_cost,
      h.1.1, h.1.2, h.2]
  · intro h hp
    simp [Subscription.monthly_cost, h, ey1, ey2, ey3, hp]
    norm_num
  · intro h hp
    simp [Subscription.yearly_cost, h, em, hp]
    norm_num

/-- C8 witness: the two numeric instances at concrete subscriptions. -/
theorem C8_witness :
    Subscription.monthly_cost
      ⟨1, 7, pyStr "a", 120, pyStr "USD", ⟨2024, 1, 1⟩, ⟨2025, 1, 1⟩,
        pyStr "yearly", pyStr "paypal", pyStr "active", []⟩ = .ok 10 ∧
    Subscription.yearly_cost
      ⟨2, 7, pyStr "b", 10, pyStr "USD", ⟨2024, 1, 1⟩, ⟨2024, 2, 1⟩,
        pyStr "monthly", pyStr "paypal", pyStr "active", []⟩ = .ok 120 :=
  ⟨(C8_cost_conversions _).2.2.2.2.1 (by decide) (by norm_num),
   (C8_cost_conversions _).2.2.2.2.2 (by decide) (by norm_num)⟩

/-- C6: for a label resolved for its owner, `delete_label` fails
`SystemLabelReadonly` on a system label (children or not), fails
`CannotDeleteLabelWithChildren` on a non-system label with children, and
otherwise deletes the row; and `can_be_deleted` holds exactly for non-system
labels without children. -/
theorem C6_delete_label_rules (s : LabelStore) (uid lid : Nat) (l : LabelRow)
    (hfind : LabelRepository.find_by_id s lid = some l)
    (howner : l.user_id = uid) :
    (l.system_label = true →
      LabelService.delete_label s uid lid = .error .systemLabelReadonly) ∧
    (l.system_label = false → Label.childrenOf s l.label_id ≠ [] →
      LabelService.delete_label s uid lid =
        .error .cannotDeleteLabelWithChildren) ∧
    (l.system_label = false → Label.childrenOf s l.label_id = [] →
      LabelService.delete_label s uid lid =
        .ok (s.filter (fun r => r.label_id != lid))) ∧
    (Label.can_be_deleted s l = true ↔
      l.system_label = false ∧ Label.childrenOf s l.label_id = []) := by
  have hget : LabelService.get_label s uid lid = .ok l := by
    unfold LabelService.get_label
    rw [hfind]
    simp [howner]
  refine ⟨?_, ?_, ?_, ?_⟩
  · intro hsys
    unfold LabelService.delete_label
    rw [hget]
    have hc : Label.can_be_deleted s l = false := by
      unfold Label.can_be_deleted
      rw [hsys]
      rfl
    simp [hc, hsys]
  · intro hsys hch
    unfold LabelService.delete_label
    rw [hget]
    have hc : Label.can_be_deleted s l = false := by
      unfold Label.can_be_deleted
      rw [hsys]
      simp [hch]
    simp [hc, hsys]
  · intro hsys hch
    unfold LabelService.delete_label
    rw [hget]
    have hc : Label.can_be_deleted s l = true := by
      unfold Label.can_be_deleted
      rw [hsys]
      simp [hch]
    simp [hc]
  · unfold Label.can_be_deleted
    cases hsys : l.system_label with
    | true => simp
    | false => simp [List.length_eq_zero]

/-- C6 witness: a concrete store exercising the system-label branch and the
`can_be_deleted` characterization. -/
theorem C6_witness :
    LabelRepository.find_by_id
      [⟨1, 7, none, pyStr "A", pyStr "#AABBCC", true⟩] 1 =
      some ⟨1, 7, none, pyStr "A", pyStr "#AABBCC", true⟩ ∧
    LabelService.delete_label
      [⟨1, 7, none, pyStr "A", pyStr "#AABBCC", true⟩] 7 1 =
      .error .systemLabelReadonly :=
  ⟨by decide,
   (C6_delete_label_rules [⟨1, 7, none, pyStr "A", pyStr "#AABBCC", true⟩] 7 1
      ⟨1, 7, none, pyStr "A", pyStr "#AABBCC", true⟩
      (by decide) (by decide)).1 (by decide)⟩

/-- C4 counterexample: a label whose stored `parent_id` equals its own id
(the situation the validator exists to detect) makes the call with an
ABSENT argument raise `CircularReference` — the code substitutes
`self.parent_id` for a missing argument, so an absent argument is not a
no-op as the claim states. -/
theorem C4_counterexample :
    (LabelNode.node 1 (some 1) []).validate_no_circular_reference none =
      .error .circularReference := by
  simp [LabelNode.validate_no_circular_reference, LabelNode.get_descendants,
    LabelNode.descList, LabelNode.parent_id, LabelNode.label_id,
    LabelNode.children]

/-- C4 (amended): when `new_parent_id` is absent the label's own
`parent_id` is substituted; the check is a no-op when the effective id is
also absent, and raises `CircularReference` exactly when the effective id
equals the label's own id or occurs among the ids of its current
descendants. -/
theorem C4_validate_no_circular_characterization (l : LabelNode)
    (p : Option Nat) :
    (l.validate_no_circular_reference p = .error .circularReference ↔
      ∃ pid, p.or l.parent_id = some pid ∧
        (pid = l.label_id ∨
          pid ∈ (l.get_descendants).map LabelNode.label_id)) ∧
    (l.validate_no_circular_reference p = .ok () ↔
      ¬ ∃ pid, p.or l.parent_id = some pid ∧
        (pid = l.label_id ∨
          pid ∈ (l.get_descendants).map LabelNode.label_id)) := by
  cases hop : p.or l.parent_id with
  | none =>
    have hval : l.validate_no_circular_reference p = .ok () := by
      unfold LabelNode.validate_no_circular_reference
      rw [hop]
    rw [hval]
    constructor
    · constructor
      · intro hc
        cases hc
      · rintro ⟨pid0, he, _⟩
        cases he
    · constructor
      · rintro _ ⟨pid0, he, _⟩
        cases he
      · intro _
        rfl
  | some pid =>
    by_cases h1 : pid = l.label_id
    · have hval : l.validate_no_circular_reference p =
          .error .circularReference := by
        unfold LabelNode.validate_no_circular_reference
        rw [hop]
        simp [h1]
      rw [hval]
      refine ⟨⟨fun _ => ⟨pid, rfl, Or.inl h1⟩, fun _ => rfl⟩, ?_⟩
      exact iff_of_false (by simp) (not_not_intro ⟨pid, rfl, Or.inl h1⟩)
    · by_cases h2 :
          ((l.get_descendants).any (fun d => d.label_id == pid)) = true
      · have hval : l.validate_no_circular_reference p =
            .error .circularReference := by
          unfold LabelNode.validate_no_circular_reference
          rw [hop]
          simp [h1, h2]
        have hmem : pid ∈ (l.get_descendants).map LabelNode.label_id := by
          rw [List.any_eq_true] at h2
          obtain ⟨x, hx, he⟩ := h2
          rw [beq_iff_eq] at he
          exact List.mem_map.mpr ⟨x, hx, he⟩
        rw [hval]
        refine ⟨⟨fun _ => ⟨pid, rfl, Or.inr hmem⟩, fun _ => rfl⟩, ?_⟩
        exact iff_of_false (by simp) (not_not_intro ⟨pid, rfl, Or.inr hmem⟩)
      · have hval : l.validate_no_circular_reference p = .ok () := by
          unfold LabelNode.validate_no_circular_reference
          rw [hop]
          simp [h1, h2]
        have hno : ¬ ∃ pid0, (some pid : Option Nat) = some pid0 ∧
            (pid0 = l.label_id ∨
              pid0 ∈ (l.get_descendants).map LabelNode.label_id) := by
          rintro ⟨pid0, he, hor⟩
          cases he
          cases hor with
          | inl hl => exact h1 hl
          | inr hr =>
            obtain ⟨x, hx, he2⟩ := List.mem_map.mp hr
            exact h2 (List.any_eq_true.mpr ⟨x, hx, beq_iff_eq.mpr he2⟩)
        rw [hval]
        exact ⟨iff_of_false (by simp) hno, iff_of_true rfl hno⟩

/-! ## Helper lemmas about the subscription validators -/

namespace Subscription

theorem validate_price_error (s : Subscription) (e : SubErr)
    (h : validate_price s = .error e) : e = .priceMustBePositive := by
  unfold validate_price at h
  split at h
  · cases h
    rfl
  · cases h

theorem validate_currency_error (s : Subscription) (e : SubErr)
    (h : validate_currency s = .error e) : e = .unsupportedCurrency := by
  unfold validate_currency at h
  split at h <;> dsimp only at h <;> split at h <;>
    first | (cases h; rfl) | cases h

theorem validate_status_error (s : Subscription) (e : SubErr)
    (h : validate_status s = .error e) : e = .invalidStatus := by
  unfold validate_status at h
  split at h
  · cases h
  · cases h
    rfl

theorem validate_payment_frequency_error (s : Subscription) (e : SubErr)
    (h : validate_payment_frequency s = .error e) :
    e = .invalidPaymentFrequency := by
  unfold validate_payment_frequency at h
  split at h
  · cases h
  · cases h
    rfl

theorem calculate_next_error (s : Subscription) (fd : Option PyDate)
    (e : SubErr) (h : calculate_next_payment_date s fd = .error e) :
    e = .unknownPaymentFrequency := by
  unfold calculate_next_payment_date at h
  split at h
  · cases h
  · split at h
    · cases h
    · split at h
      · cases h
      · cases h
        rfl

/-- A successful dispatch always yields `add_months` of the reference date
by a positive month count. -/
theorem calculate_next_ok (s : Subscription) (fd : Option PyDate)
    (next : PyDate) (h : calculate_next_payment_date s fd = .ok next) :
    ∃ k, 1 ≤ k ∧ next = add_months (fd.getD s.next_payment_date) k := by
  unfold calculate_next_payment_date at h
  split at h
  · cases h
    exact ⟨1, by omega, rfl⟩
  · split at h
    · cases h
      exact ⟨3, by omega, rfl⟩
    · split at h
      · cases h
        exact ⟨12, by omega, rfl⟩
      · cases h

/-- `validate_currency` only rewrites the currency field. -/
theorem validate_currency_ok (s s1 : Subscription)
    (h : validate_currency s = .ok s1) :
    s1.subscription_id = s.subscription_id ∧ s1.user_id = s.user_id ∧
    s1.name = s.name ∧ s1.price = s.price ∧
    s1.initial_payment_date = s.initial_payment_date ∧
    s1.next_payment_date = s.next_payment_date ∧
    s1.payment_frequency = s.payment_frequency ∧
    s1.payment_method = s.payment_method ∧ s1.status = s.status ∧
    s1.labels = s.labels := by
  unfold validate_currency at h
  split at h <;> dsimp only at h <;> split at h <;> cases h <;> simp

theorem validate_dates_ok (s : Subscription) (h : validate_dates s = .ok ()) :
    dateLtb s.next_payment_date s.initial_payment_date = false := by
  unfold validate_dates at h
  split at h
  · cases h
  · next hcond => simpa using hcond

/-- The dispatch only reads the frequency when an explicit reference date is
passed. -/
theorem calculate_next_freq_congr (s t : Subscription) (x : PyDate)
    (hf : s.payment_frequency = t.payment_frequency) :
    calculate_next_payment_date s (some x) =
      calculate_next_payment_date t (some x) := by
  unfold calculate_next_payment_date
  rw [hf]
  rfl

end Subscription

/-- C9: adding at least one month to a valid date gives a strictly later
date; consequently, on the creation path, after `next_payment_date` has
been computed from `initial_payment_date`, the `validate_dates` check can
never fail — `create_subscription` never returns that error. -/
theorem C9_add_months_strictly_later (d : PyDate) (m : Nat) (hm : 1 ≤ m)
    (hv : d.Valid) (store : List Subscription) (uid fresh_id : Nat)
    (data : SubscriptionService.SubCreateData)
    (hvd : data.initial_payment_date.Valid) :
    dateLtb d (Subscription.add_months d m) = true ∧
    SubscriptionService.create_subscription store uid fresh_id data ≠
      .error .nextPaymentBeforeInitial := by
  refine ⟨Subscription.add_months_strict d m hm hv.1 hv.2.1, ?_⟩
  intro hc
  unfold SubscriptionService.create_subscription at hc
  split at hc
  · exact absurd hc (by decide)
  · dsimp only at hc
    split at hc
    case h_1 e he =>
      have h1 := Subscription.validate_price_error _ _ he
      injection hc with h2
      exact absurd (h1.symm.trans h2) (by decide)
    case h_2 u hu =>
      split at hc
      case h_1 e he =>
        have h1 := Subscription.validate_currency_error _ _ he
        injection hc with h2
        exact absurd (h1.symm.trans h2) (by decide)
      case h_2 s1 hs1 =>
        split at hc
        case h_1 e he =>
          have h1 := Subscription.validate_status_error _ _ he
          injection hc with h2
          exact absurd (h1.symm.trans h2) (by decide)
        case h_2 u2 hu2 =>
          split at hc
          case h_1 e he =>
            have h1 := Subscription.validate_payment_frequency_error _ _ he
            injection hc with h2
            exact absurd (h1.symm.trans h2) (by decide)
          case h_2 u3 hu3 =>
            split at hc
            case h_1 e he =>
              have h1 := Subscription.calculate_next_error _ _ _ he
              injection hc with h2
              exact absurd (h1.symm.trans h2) (by decide)
            case h_2 next hnext =>
              obtain ⟨k, hk, hkeq⟩ :=
                Subscription.calculate_next_ok _ _ _ hnext
              simp only [Option.getD] at hkeq
              have hlt := Subscription.add_months_strict
                data.initial_payment_date k hk hvd.1 hvd.2.1
              have hfalse := Subscription.dateLtb_asymm _ _ hlt
              obtain ⟨_, _, _, _, hinit, _, _, _, _, _⟩ :=
                Subscription.validate_currency_ok _ _ hs1
              split at hc
              case h_1 e he =>
                unfold Subscription.validate_dates at he
                have hcond : dateLtb next s1.initial_payment_date = false := by
                  rw [hkeq, hinit]
                  exact hfalse
                rw [hcond] at he
                simp at he
              case h_2 u4 hu4 =>
                cases hc

theorem C9_witness :
    dateLtb ⟨2024, 1, 31⟩ (Subscription.add_months ⟨2024, 1, 31⟩ 1) = true ∧
    SubscriptionService.create_subscription [] 7 1
      ⟨pyStr "n", 10, pyStr "USD", ⟨2024, 1, 31⟩, none, pyStr "monthly",
        pyStr "paypal", pyStr "active"⟩ ≠ .error .nextPaymentBeforeInitial :=
  C9_add_months_strictly_later ⟨2024, 1, 31⟩ 1 (by decide) (by decide) [] 7 1
    ⟨pyStr "n", 10, pyStr "USD", ⟨2024, 1, 31⟩, none, pyStr "monthly",
      pyStr "paypal", pyStr "active"⟩ (by decide)

namespace SubscriptionService

/-- On the successful creation path, `next_payment_date` is exactly what the
calculator yields from `initial_payment_date`, and the stored dates are in
order. -/
theorem create_subscription_next_spec (store : List Subscription)
    (uid fid : Nat) (cd : SubCreateData) (sub : Subscription)
    (h : create_subscription store uid fid cd = .ok sub) :
    sub.initial_payment_date = cd.initial_payment_date ∧
    Subscription.calculate_next_payment_date sub
      (some sub.initial_payment_date) = .ok sub.next_payment_date ∧
    dateLeb sub.initial_payment_date sub.next_payment_date = true := by
  unfold create_subscription at h
  split at h
  · cases h
  · dsimp only at h
    split at h
    case h_1 e he => cases h
    case h_2 u hu =>
      split at h
      case h_1 e he => cases h
      case h_2 s1 hs1 =>
        split at h
        case h_1 e he => cases h
        case h_2 u2 hu2 =>
          split at h
          case h_1 e he => cases h
          case h_2 u3 hu3 =>
            split at h
            case h_1 e he => cases h
            case h_2 next hnext =>
              split at h
              case h_1 e he => cases h
              case h_2 u4 hu4 =>
                cases u4
                cases h
                obtain ⟨_, _, _, _, hinit, _, hfreq, _, _, _⟩ :=
                  Subscription.validate_currency_ok _ _ hs1
                have hinit2 : s1.initial_payment_date =
                    cd.initial_payment_date := hinit
                refine ⟨hinit2, ?_, ?_⟩
                · show Subscription.calculate_next_payment_date
                    { s1 with next_payment_date := next }
                    (some ({ s1 with next_payment_date := next} :
                      Subscription).initial_payment_date) = .ok next
                  have e1 : ({ s1 with next_payment_date := next} :
                      Subscription).initial_payment_date =
                      s1.initial_payment_date := rfl
                  rw [e1,
                    Subscription.calculate_next_freq_congr
                      { s1 with next_payment_date := next } s1
                      s1.initial_payment_date rfl, hinit2]
                  exact hnext
                · have hf := Subscription.validate_dates_ok _ hu4
                  exact (Subscription.dateLtb_false_iff_dateLeb _ _).mp hf

/-- On the successful update path, the date order always holds, and whenever
`payment_frequency` or `initial_payment_date` was among the supplied keys
the stored `next_payment_date` is what the calculator yields from the (new)
`initial_payment_date`. -/
theorem update_subscription_next_spec (store : List Subscription)
    (lstore : LabelStore) (uid sid : Nat) (ud : SubUpdateData)
    (sub' : Subscription)
    (h : update_subscription store lstore uid sid ud = .ok sub') :
    ((ud.payment_frequency.isSome ∨ ud.initial_payment_date.isSome) →
      Subscription.calculate_next_payment_date sub'
        (some sub'.initial_payment_date) = .ok sub'.next_payment_date) ∧
    dateLeb sub'.initial_payment_date sub'.next_payment_date = true := by
  unfold update_subscription at h
  split at h
  case h_1 e he => cases h
  case h_2 sub hsub =>
    dsimp only at h
    split at h
    case h_1 e he => cases h
    case h_2 newLabels hlab =>
      split at h
      case h_1 e he => cases h
      case h_2 u hdup =>
        split at h
        case h_1 e he => cases h
        case h_2 u1 hp =>
          split at h
          case h_1 e he => cases h
          case h_2 sub2 hcur =>
            split at h
            case h_1 e he => cases h
            case h_2 u2 hst =>
              split at h
              case h_1 e hrec => cases h
              case h_2 sub3 hrec =>
                split at h
                case h_1 e he => cases h
                case h_2 u4 hu4 =>
                  cases u4
                  cases h
                  have hle : dateLeb sub'.initial_payment_date
                      sub'.next_payment_date = true :=
                    (Subscription.dateLtb_false_iff_dateLeb _ _).mp
                      (Subscription.validate_dates_ok _ hu4)
                  split at hrec
                  case isTrue hpres =>
                    split at hrec
                    case h_1 e hcalc => cases hrec
                    case h_2 next hcalc =>
                      cases hrec
                      refine ⟨fun _ => ?_, hle⟩
                      have e1 : ({ sub2 with next_payment_date := next} :
                          Subscription).initial_payment_date =
                          sub2.initial_payment_date := rfl
                      show Subscription.calculate_next_payment_date
                        { sub2 with next_payment_date := next }
                        (some ({ sub2 with next_payment_date := next} :
                          Subscription).initial_payment_date) = .ok next
                      rw [e1,
                        Subscription.calculate_next_freq_congr
                          { sub2 with next_payment_date := next } sub2
                          sub2.initial_payment_date rfl]
                      exact hcalc
                  case isFalse hpres =>
                    cases hrec
                    refine ⟨fun hor => ?_, hle⟩
                    exfalso
                    apply hpres
                    cases hor with
                    | inl h1 => simp [h1]
                    | inr h2 => simp [h2]

end SubscriptionService

/-- C5: `create_subscription` always stores
`calculate_next_payment_date(initial_payment_date)` as the next payment
date (whatever the caller supplied for that column), `update_subscription`
recomputes it from `initial_payment_date` whenever `payment_frequency` or
`initial_payment_date` is supplied, and after either successful operation
`next_payment_date ≥ initial_payment_date`. -/
theorem C5_next_payment_date_computed (store : List Subscription)
    (lstore : LabelStore) (uid fid sid : Nat)
    (cd : SubscriptionService.SubCreateData)
    (ud : SubscriptionService.SubUpdateData) (sub sub' : Subscription) :
    (SubscriptionService.create_subscription store uid fid cd = .ok sub →
      sub.initial_payment_date = cd.initial_payment_date ∧
      Subscription.calculate_next_payment_date sub
        (some sub.initial_payment_date) = .ok sub.next_payment_date ∧
      dateLeb sub.initial_payment_date sub.next_payment_date = true) ∧
    (SubscriptionService.update_subscription store lstore uid sid ud =
        .ok sub' →
      ((ud.payment_frequency.isSome ∨ ud.initial_payment_date.isSome) →
        Subscription.calculate_next_payment_date sub'
          (some sub'.initial_payment_date) = .ok sub'.next_payment_date) ∧
      dateLeb sub'.initial_payment_date sub'.next_payment_date = true) :=
  ⟨fun h => SubscriptionService.create_subscription_next_spec _ _ _ _ _ h,
   fun h => SubscriptionService.update_subscription_next_spec _ _ _ _ _ _ h⟩

theorem C5_witness :
    SubscriptionService.create_subscription [] 7 1
      ⟨pyStr "n", 10, pyStr "USD", ⟨2024, 1, 31⟩, none, pyStr "monthly",
        pyStr "paypal", pyStr "active"⟩ =
      .ok ⟨1, 7, pyStr "n", 10, pyStr "USD", ⟨2024, 1, 31⟩, ⟨2024, 2, 29⟩,
        pyStr "monthly", pyStr "paypal", pyStr "active", []⟩ ∧
    dateLeb ⟨2024, 1, 31⟩ ⟨2024, 2, 29⟩ = true := by
  have hc : SubscriptionService.create_subscription [] 7 1
      ⟨pyStr "n", 10, pyStr "USD", ⟨2024, 1, 31⟩, none, pyStr "monthly",
        pyStr "paypal", pyStr "active"⟩ =
      .ok ⟨1, 7, pyStr "n", 10, pyStr "USD", ⟨2024, 1, 31⟩, ⟨2024, 2, 29⟩,
        pyStr "monthly", pyStr "paypal", pyStr "active", []⟩ := by
    rw [SubscriptionService.create_subscription]
    norm_num
    decide
  exact ⟨hc,
    ((C5_next_payment_date_computed [] [] 7 1 0 _
      ⟨none, none, none, none, none, none, none, none, none⟩ _
      ⟨1, 7, pyStr "n", 10, pyStr "USD", ⟨2024, 1, 31⟩, ⟨2024, 2, 29⟩,
        pyStr "monthly", pyStr "paypal", pyStr "active", []⟩).1 hc).2.2⟩

/-! ## Helper lemmas about label lookup and the saved store -/

namespace LabelRepository

theorem find_by_id_label_id (s : LabelStore) (id : Nat) (l : LabelRow)
    (h : find_by_id s id = some l) : l.label_id = id := by
  have := List.find?_some h
  simpa using this

theorem find_by_id_map_update (s : LabelStore) (lid : Nat)
    (label new : LabelRow) (hfind : find_by_id s lid = some label)
    (hnew : new.label_id = label.label_id) :
    find_by_id (s.map (fun r => if r.label_id == lid then new else r)) lid =
      some new := by
  induction s with
  | nil => simp [find_by_id] at hfind
  | cons a t ih =>
    unfold find_by_id at hfind ⊢
    rw [List.map_cons]
    by_cases ha : (a.label_id == lid) = true
    · simp only [List.find?_cons, ha] at hfind
      cases hfind
      rw [if_pos ha]
      have hnewid : (new.label_id == lid) = true := by
        rw [beq_iff_eq] at ha ⊢
        rw [hnew, ha]
      simp only [List.find?_cons, hnewid]
    · have ha2 : (a.label_id == lid) = false := by
        revert ha
        cases a.label_id == lid <;> simp
      simp only [List.find?_cons, ha2] at hfind
      rw [if_neg ha]
      simp only [List.find?_cons, ha2]
      exact ih hfind

end LabelRepository

namespace Label

theorem validate_name_error (l : LabelRow) (e : LabelErr)
    (h : validate_name l = .error e) :
    e = .labelNameRequired ∨ e = .labelNameTooLong := by
  unfold validate_name at h
  split at h
  · injection h with h2
    exact Or.inl h2.symm
  · split at h
    · injection h with h2
      exact Or.inr h2.symm
    · cases h

theorem validate_color_error (l : LabelRow) (e : LabelErr)
    (h : validate_color l = .error e) :
    e = .labelColorRequired ∨ e = .invalidHexColor := by
  unfold validate_color at h
  split at h
  · injection h with h2
    exact Or.inl h2.symm
  · dsimp only at h
    split at h
    · cases h
    · injection h with h2
      exact Or.inr h2.symm

end Label

/-- C2 (amended): for a NON-SYSTEM label and an update request supplying a
truthy new parent id, where the resolved parent belongs to the same user
and is neither the label itself nor one of its descendants, `update_label`
fails with `HierarchyTooDeep` exactly when
`new_parent.depth + 1 + subtree_height(label) >= 5`; and below that bound
(with the stored name and color passing validation unchanged) it saves the
label reparented under the new parent. -/
theorem C2_update_label_reparent_depth (s : LabelStore) (uid lid npid : Nat)
    (label np : LabelRow)
    (hfind : LabelRepository.find_by_id s lid = some label)
    (howner : label.user_id = uid)
    (hsys : label.system_label = false)
    (hnp : LabelRepository.find_by_id s npid = some np)
    (hnpowner : np.user_id = uid)
    (hanc : Label.is_ancestor_of s label np = false)
    (hnself : label.label_id ≠ npid) :
    (LabelService.update_label s uid lid ⟨some (some npid), none, none⟩ =
        .error .hierarchyTooDeep ↔
      5 ≤ Label.get_depth s np + 1 + Label.get_subtree_height s label) ∧
    (Label.get_depth s np + 1 + Label.get_subtree_height s label < 5 →
      Label.validate_name label = .ok () →
      Label.validate_color label = .ok label.color →
      LabelService.update_label s uid lid ⟨some (some npid), none, none⟩ =
        .ok (s.map (fun r => if r.label_id == lid then
          { label with parent_id := some npid } else r)) ∧
      LabelRepository.find_by_id
        (s.map (fun r => if r.label_id == lid then
          { label with parent_id := some npid } else r)) lid =
        some { label with parent_id := some npid }) := by
  have hget : LabelService.get_label s uid lid = .ok label := by
    unfold LabelService.get_label
    rw [hfind]
    simp [howner]
  have hgetnp : LabelService.get_label s uid npid = .ok np := by
    unfold LabelService.get_label
    rw [hnp]
    simp [hnpowner]
  have hbeq : (label.label_id == npid) = false := by
    simp [hnself]
  by_cases hcond :
      5 ≤ Label.get_depth s np + 1 + Label.get_subtree_height s label
  · have hred : LabelService.update_label s uid lid
        ⟨some (some npid), none, none⟩ = .error .hierarchyTooDeep := by
      unfold LabelService.update_label
      simp only [hget]
      rw [if_neg (show ¬(label.system_label = true) by rw [hsys]; simp)]
      simp only [hgetnp, hanc, Bool.false_or, hbeq, Bool.false_eq_true,
        if_false]
      rw [if_pos hcond]
    refine ⟨iff_of_true hred hcond, fun hlt => ?_⟩
    omega
  · have hnotge : ¬ (Label.get_depth s np + 1 +
        Label.get_subtree_height s label ≥ 5) := hcond
    cases hn : Label.validate_name { label with parent_id := some npid } with
    | error e =>
      have hred : LabelService.update_label s uid lid
          ⟨some (some npid), none, none⟩ = .error e := by
        unfold LabelService.update_label
        simp only [hget]
        rw [if_neg (show ¬(label.system_label = true) by rw [hsys]; simp)]
        simp only [hgetnp, hanc, Bool.false_or, hbeq, Bool.false_eq_true,
          if_false]
        rw [if_neg hnotge]
        simp only [hn]
      have hne : e ≠ LabelErr.hierarchyTooDeep := by
        rcases Label.validate_name_error _ _ hn with h2 | h2 <;> subst h2 <;>
          decide
      constructor
      · rw [hred]
        exact iff_of_false (fun hcontra => hne (by injection hcontra)) hcond
      · intro hlt hvn hvc
        have hvn2 : Label.validate_name { label with parent_id := some npid } =
            .ok () := hvn
        rw [hvn2] at hn
        cases hn
    | ok u =>
      cases u
      cases hcl : Label.validate_color { label with parent_id := some npid } with
      | error e =>
        have hred : LabelService.update_label s uid lid
            ⟨some (some npid), none, none⟩ = .error e := by
          unfold LabelService.update_label
          simp only [hget]
          rw [if_neg (show ¬(label.system_label = true) by rw [hsys]; simp)]
          simp only [hgetnp, hanc, Bool.false_or, hbeq, Bool.false_eq_true,
            if_false]
          rw [if_neg hnotge]
          simp only [hn, hcl]
        have hne : e ≠ LabelErr.hierarchyTooDeep := by
          rcases Label.validate_color_error _ _ hcl with h2 | h2 <;> subst h2 <;>
            decide
        constructor
        · rw [hred]
          exact iff_of_false (fun hcontra => hne (by injection hcontra)) hcond
        · intro hlt hvn hvc
          have hvc2 : Label.validate_color
              { label with parent_id := some npid } = .ok label.color := hvc
          rw [hvc2] at hcl
          cases hcl
      | ok c4 =>
        have hred : LabelService.update_label s uid lid
            ⟨some (some npid), none, none⟩ =
            .ok (s.map (fun r => if r.label_id == lid then
              { label with parent_id := some npid, color := c4 } else r)) := by
          unfold LabelService.update_label
          simp only [hget]
          rw [if_neg (show ¬(label.system_label = true) by rw [hsys]; simp)]
          simp only [hgetnp, hanc, Bool.false_or, hbeq, Bool.false_eq_true,
            if_false]
          rw [if_neg hnotge]
          simp only [hn, hcl]
        constructor
        · rw [hred]
          exact iff_of_false (fun hcontra => by cases hcontra) hcond
        · intro hlt hvn hvc
          have hvc2 : Label.validate_color
              { label with parent_id := some npid } = .ok label.color := hvc
          rw [hvc2] at hcl
          injection hcl with hc4
          subst hc4
          refine ⟨hred, ?_⟩
          exact LabelRepository.find_by_id_map_update s lid label _ hfind rfl

theorem C2_witness :
    (LabelService.update_label
        [⟨1, 7, none, pyStr "A", pyStr "#AABBCC", false⟩,
         ⟨2, 7, none, pyStr "B", pyStr "#AABBCC", false⟩] 7 1
        ⟨some (some 2), none, none⟩ = .error .hierarchyTooDeep ↔
      5 ≤ Label.get_depth
          [⟨1, 7, none, pyStr "A", pyStr "#AABBCC", false⟩,
           ⟨2, 7, none, pyStr "B", pyStr "#AABBCC", false⟩]
          ⟨2, 7, none, pyStr "B", pyStr "#AABBCC", false⟩ + 1 +
        Label.get_subtree_height
          [⟨1, 7, none, pyStr "A", pyStr "#AABBCC", false⟩,
           ⟨2, 7, none, pyStr "B", pyStr "#AABBCC", false⟩]
          ⟨1, 7, none, pyStr "A", pyStr "#AABBCC", false⟩) :=
  (C2_update_label_reparent_depth
    [⟨1, 7, none, pyStr "A", pyStr "#AABBCC", false⟩,
     ⟨2, 7, none, pyStr "B", pyStr "#AABBCC", false⟩] 7 1 2
    ⟨1, 7, none, pyStr "A", pyStr "#AABBCC", false⟩
    ⟨2, 7, none, pyStr "B", pyStr "#AABBCC", false⟩
    (by decide) (by decide) (by decide) (by decide) (by decide) (by decide)
    (by decide)).1

/-- C2 counterexample: a SYSTEM label satisfying every hypothesis of the
claim, with the depth bound violated (`new_parent.depth + 1 + height = 5`),
is rejected with `SystemLabelReadonly`, not `HierarchyTooDeep` — the claim
as stated omits the non-system precondition of the update protocol. -/
theorem C2_counterexample :
    LabelRepository.find_by_id
        [⟨1, 7, none, pyStr "A", pyStr "#AABBCC", true⟩,
         ⟨2, 7, some 3, pyStr "B", pyStr "#AABBCC", false⟩,
         ⟨3, 7, some 4, pyStr "C", pyStr "#AABBCC", false⟩,
         ⟨4, 7, some 5, pyStr "D", pyStr "#AABBCC", false⟩,
         ⟨5, 7, some 6, pyStr "E", pyStr "#AABBCC", false⟩,
         ⟨6, 7, none, pyStr "F", pyStr "#AABBCC", false⟩] 1 =
      some ⟨1, 7, none, pyStr "A", pyStr "#AABBCC", true⟩ ∧
    Label.is_ancestor_of
        [⟨1, 7, none, pyStr "A", pyStr "#AABBCC", true⟩,
         ⟨2, 7, some 3, pyStr "B", pyStr "#AABBCC", false⟩,
         ⟨3, 7, some 4, pyStr "C", pyStr "#AABBCC", false⟩,
         ⟨4, 7, some 5, pyStr "D", pyStr "#AABBCC", false⟩,
         ⟨5, 7, some 6, pyStr "E", pyStr "#AABBCC", false⟩,
         ⟨6, 7, none, pyStr "F", pyStr "#AABBCC", false⟩]
        ⟨1, 7, none, pyStr "A", pyStr "#AABBCC", true⟩
        ⟨2, 7, some 3, pyStr "B", pyStr "#AABBCC", false⟩ = false ∧
    5 ≤ Label.get_depth
        [⟨1, 7, none, pyStr "A", pyStr "#AABBCC", true⟩,
         ⟨2, 7, some 3, pyStr "B", pyStr "#AABBCC", false⟩,
         ⟨3, 7, some 4, pyStr "C", pyStr "#AABBCC", false⟩,
         ⟨4, 7, some 5, pyStr "D", pyStr "#AABBCC", false⟩,
         ⟨5, 7, some 6, pyStr "E", pyStr "#AABBCC", false⟩,
         ⟨6, 7, none, pyStr "F", pyStr "#AABBCC", false⟩]
        ⟨2, 7, some 3, pyStr "B", pyStr "#AABBCC", false⟩ + 1 +
      Label.get_subtree_height
        [⟨1, 7, none, pyStr "A", pyStr "#AABBCC", true⟩,
         ⟨2, 7, some 3, pyStr "B", pyStr "#AABBCC", false⟩,
         ⟨3, 7, some 4, pyStr "C", pyStr "#AABBCC", false⟩,
         ⟨4, 7, some 5, pyStr "D", pyStr "#AABBCC", false⟩,
         ⟨5, 7, some 6, pyStr "E", pyStr "#AABBCC", false⟩,
         ⟨6, 7, none, pyStr "F", pyStr "#AABBCC", false⟩]
        ⟨1, 7, none, pyStr "A", pyStr "#AABBCC", true⟩ ∧
    LabelService.update_label
        [⟨1, 7, none, pyStr "A", pyStr "#AABBCC", true⟩,
         ⟨2, 7, some 3, pyStr "B", pyStr "#AABBCC", false⟩,
         ⟨3, 7, some 4, pyStr "C", pyStr "#AABBCC", false⟩,
         ⟨4, 7, some 5, pyStr "D", pyStr "#AABBCC", false⟩,
         ⟨5, 7, some 6, pyStr "E", pyStr "#AABBCC", false⟩,
         ⟨6, 7, none, pyStr "F", pyStr "#AABBCC", false⟩] 7 1
        ⟨some (some 2), none, none⟩ = .error .systemLabelReadonly ∧
    LabelService.update_label
        [⟨1, 7, none, pyStr "A", pyStr "#AABBCC", true⟩,
         ⟨2, 7, some 3, pyStr "B", pyStr "#AABBCC", false⟩,
         ⟨3, 7, some 4, pyStr "C", pyStr "#AABBCC", false⟩,
         ⟨4, 7, some 5, pyStr "D", pyStr "#AABBCC", false⟩,
         ⟨5, 7, some 6, pyStr "E", pyStr "#AABBCC", false⟩,
         ⟨6, 7, none, pyStr "F", pyStr "#AABBCC", false⟩] 7 1
        ⟨some (some 2), none, none⟩ ≠ .error .hierarchyTooDeep := by
  decide

/-! ## Walk lemmas for the depth invariant -/

namespace Label

/-- The ids at which the `get_depth` walk performs a lookup (including a
final dangling id). -/
def visitedIds (s : LabelStore) : Nat → Option Nat → List Nat
  | _, none => []
  | 0, some _ => []
  | f + 1, some cid =>
    match LabelRepository.find_by_id s cid with
    | none => [cid]
    | some row => cid :: visitedIds s f row.parent_id

/-- The walk only depends on the parent pointers the lookups return. -/
theorem depthSteps_ext (s s' : LabelStore)
    (hext : ∀ id, Option.map LabelRow.parent_id (LabelRepository.find_by_id s' id) =
      Option.map LabelRow.parent_id (LabelRepository.find_by_id s id)) :
    ∀ (f : Nat) (cur : Option Nat), depthSteps s' f cur = depthSteps s f cur := by
  intro f
  induction f with
  | zero =>
    intro cur
    cases cur <;> rfl
  | succ f ih =>
    intro cur
    cases cur with
    | none => rfl
    | some cid =>
      show (match LabelRepository.find_by_id s' cid with
        | none => 0
        | some row => 1 + depthSteps s' f row.parent_id) =
        (match LabelRepository.find_by_id s cid with
        | none => 0
        | some row => 1 + depthSteps s f row.parent_id)
      cases hf : LabelRepository.find_by_id s cid with
      | none =>
        have h2 := hext cid
        rw [hf] at h2
        cases hf2 : LabelRepository.find_by_id s' cid with
        | none => rfl
        | some r => rw [hf2] at h2; cases h2
      | some row =>
        have h2 := hext cid
        rw [hf] at h2
        cases hf2 : LabelRepository.find_by_id s' cid with
        | none => rw [hf2] at h2; cases h2
        | some r =>
          rw [hf2] at h2
          simp only [Option.map] at h2
          have hpp : r.parent_id = row.parent_id := by
            injection h2
          show 1 + depthSteps s' f r.parent_id = 1 + depthSteps s f row.parent_id
          rw [hpp, ih]

/-- The walk is unchanged by a store modification that only touches the row
with id `lid`, as long as the walk never looks `lid` up. -/
theorem depthSteps_congr_avoid (s s' : LabelStore) (lid : Nat)
    (hfind : ∀ id, id ≠ lid →
      LabelRepository.find_by_id s' id = LabelRepository.find_by_id s id) :
    ∀ (f : Nat) (cur : Option Nat), lid ∉ visitedIds s f cur →
      depthSteps s' f cur = depthSteps s f cur := by
  intro f
  induction f with
  | zero =>
    intro cur _
    cases cur <;> rfl
  | succ f ih =>
    intro cur hav
    cases cur with
    | none => rfl
    | some cid =>
      show (match LabelRepository.find_by_id s' cid with
        | none => 0
        | some row => 1 + depthSteps s' f row.parent_id) =
        (match LabelRepository.find_by_id s cid with
        | none => 0
        | some row => 1 + depthSteps s f row.parent_id)
      cases hf : LabelRepository.find_by_id s cid with
      | none =>
        have hne : cid ≠ lid := by
          intro hcontra
          apply hav
          unfold visitedIds
          rw [hf]
          simp [hcontra]
        rw [hfind cid hne, hf]
      | some row =>
        have hne : cid ≠ lid := by
          intro hcontra
          apply hav
          unfold visitedIds
          rw [hf]
          simp [hcontra]
        have hav2 : lid ∉ visitedIds s f row.parent_id := by
          intro hcontra
          apply hav
          unfold visitedIds
          rw [hf]
          exact List.mem_cons_of_mem _ hcontra
        rw [hfind cid hne, hf]
        show 1 + depthSteps s' f row.parent_id = 1 + depthSteps s f row.parent_id
        rw [ih _ hav2]

/-- If the walk result is below both fuel bounds, the fuel is irrelevant. -/
theorem depthSteps_stable (s : LabelStore) :
    ∀ (f f' : Nat) (cur : Option Nat), depthSteps s f cur < f →
      depthSteps s f cur < f' → depthSteps s f' cur = depthSteps s f cur := by
  intro f
  induction f with
  | zero =>
    intro f' cur h1 _
    omega
  | succ f ih =>
    intro f' cur h1 h2
    cases cur with
    | none =>
      cases f' with
      | zero => rfl
      | succ f'' => rfl
    | some cid =>
      have hrw : depthSteps s (f + 1) (some cid) =
          (match LabelRepository.find_by_id s cid with
          | none => 0
          | some row => 1 + depthSteps s f row.parent_id) := rfl
      rw [hrw] at h1 h2 ⊢
      cases hf : LabelRepository.find_by_id s cid with
      | none =>
        rw [hf] at h1 h2
        cases f' with
        | zero => omega
        | succ f'' =>
          show (match LabelRepository.find_by_id s cid with
            | none => 0
            | some row => 1 + depthSteps s f'' row.parent_id) = 0
          rw [hf]
      | some row =>
        rw [hf] at h1 h2
        cases f' with
        | zero => omega
        | succ f'' =>
          show (match LabelRepository.find_by_id s cid with
            | none => 0
            | some row => 1 + depthSteps s f'' row.parent_id) =
            1 + depthSteps s f row.parent_id
          rw [hf]
          show 1 + depthSteps s f'' row.parent_id = 1 + depthSteps s f row.parent_id
          have h1' : 1 + depthSteps s f row.parent_id < f + 1 := h1
          have h2' : 1 + depthSteps s f row.parent_id < f'' + 1 := h2
          have := ih f'' row.parent_id (by omega) (by omega)
          omega

/-- An id that resolves in the store and is not among the collected
ancestor ids is never looked up by the walk. -/
theorem lid_not_in_visited (s : LabelStore) (lid : Nat) (label : LabelRow)
    (hlid : LabelRepository.find_by_id s lid = some label) :
    ∀ (f : Nat) (cur : Option Nat),
      lid ∉ (ancestorRows s f cur).map LabelRow.label_id →
      lid ∉ visitedIds s f cur := by
  intro f
  induction f with
  | zero =>
    intro cur _
    cases cur <;> simp [visitedIds]
  | succ f ih =>
    intro cur hanc
    cases cur with
    | none => simp [visitedIds]
    | some cid =>
      unfold visitedIds
      cases hf : LabelRepository.find_by_id s cid with
      | none =>
        intro hmem
        simp only [List.mem_singleton] at hmem
        rw [hmem] at hlid
        rw [hlid] at hf
        cases hf
      | some row =>
        have hrowid : row.label_id = cid :=
          LabelRepository.find_by_id_label_id s cid row hf
        unfold ancestorRows at hanc
        rw [hf] at hanc
        simp only [List.map_cons, List.mem_cons] at hanc
        intro hmem
        cases hmem with
        | head =>
          exact hanc (Or.inl hrowid.symm)
        | tail _ hmem2 =>
          exact ih row.parent_id (fun hc => hanc (Or.inr hc)) hmem2

/-- Collected ancestor ids only grow with the fuel. -/
theorem ancestorRows_map_fuel_le (s : LabelStore) :
    ∀ (f f' : Nat) (cur : Option Nat), f ≤ f' →
      ∀ id, id ∈ (ancestorRows s f cur).map LabelRow.label_id →
        id ∈ (ancestorRows s f' cur).map LabelRow.label_id := by
  intro f
  induction f with
  | zero =>
    intro f' cur _ id hmem
    cases cur <;> simp [ancestorRows] at hmem
  | succ f ih =>
    intro f' cur hle id hmem
    cases cur with
    | none => simp [ancestorRows] at hmem
    | some cid =>
      unfold ancestorRows at hmem
      cases hf : LabelRepository.find_by_id s cid with
      | none => rw [hf] at hmem; simp at hmem
      | some row =>
        rw [hf] at hmem
        simp only [List.map_cons, List.mem_cons] at hmem
        cases f' with
        | zero => omega
        | succ f'' =>
          unfold ancestorRows
          rw [hf]
          simp only [List.map_cons, List.mem_cons]
          cases hmem with
          | inl h2 => exact Or.inl h2
          | inr h2 => exact Or.inr (ih f'' row.parent_id (by omega) id h2)

end Label

namespace LabelRepository

theorem find_by_id_map_update_ne (s : LabelStore) (lid : Nat) (new : LabelRow)
    (hnew : new.label_id = lid) (id : Nat) (hne : id ≠ lid) :
    find_by_id (s.map (fun r => if r.label_id == lid then new else r)) id =
      find_by_id s id := by
  induction s with
  | nil => rfl
  | cons a t ih =>
    unfold find_by_id at ih ⊢
    rw [List.map_cons]
    by_cases ha : (a.label_id == lid) = true
    · rw [if_pos ha]
      rw [beq_iff_eq] at ha
      have h1 : (new.label_id == id) = false := by
        rw [beq_eq_false_iff_ne, hnew]
        exact fun hc => hne hc.symm
      have h2 : (a.label_id == id) = false := by
        rw [beq_eq_false_iff_ne, ha]
        exact fun hc => hne hc.symm
      simp only [List.find?_cons, h1, h2]
      exact ih
    · rw [if_neg ha]
      simp only [List.find?_cons]
      cases h2 : a.label_id == id
      · exact ih
      · rfl

theorem find_by_id_append_left (s t : LabelStore) (id : Nat) (r : LabelRow)
    (h : find_by_id s id = some r) : find_by_id (s ++ t) id = some r := by
  induction s with
  | nil => simp [find_by_id] at h
  | cons a s0 ih =>
    unfold find_by_id at h ih ⊢
    rw [List.cons_append]
    simp only [List.find?_cons] at h ⊢
    cases ha : a.label_id == id
    · rw [ha] at h
      exact ih h
    · rw [ha] at h
      exact h

theorem find_by_id_append_right_none (s : LabelStore) (row2 : LabelRow)
    (id : Nat) (h : find_by_id s id = none) (hne : row2.label_id ≠ id) :
    find_by_id (s ++ [row2]) id = none := by
  induction s with
  | nil =>
    unfold find_by_id
    simp [List.find?_cons, beq_eq_false_iff_ne.mpr hne]
  | cons a s0 ih =>
    unfold find_by_id at h ih ⊢
    rw [List.cons_append]
    simp only [List.find?_cons] at h ⊢
    cases ha : a.label_id == id
    · rw [ha] at h
      exact ih h
    · rw [ha] at h
      cases h

end LabelRepository

namespace Label

/-- Appending a fresh row (no existing row points at it, and the walk does
not start at it) leaves the walk unchanged. -/
theorem depthSteps_append_congr (s : LabelStore) (row2 : LabelRow)
    (hfresh : ∀ r ∈ s, r.parent_id ≠ some row2.label_id) :
    ∀ (f : Nat) (cur : Option Nat), cur ≠ some row2.label_id →
      depthSteps (s ++ [row2]) f cur = depthSteps s f cur := by
  intro f
  induction f with
  | zero =>
    intro cur _
    cases cur <;> rfl
  | succ f ih =>
    intro cur hcur
    cases cur with
    | none => rfl
    | some cid =>
      have hcid : row2.label_id ≠ cid := fun hc => hcur (by rw [hc])
      show (match LabelRepository.find_by_id (s ++ [row2]) cid with
        | none => 0
        | some row => 1 + depthSteps (s ++ [row2]) f row.parent_id) =
        (match LabelRepository.find_by_id s cid with
        | none => 0
        | some row => 1 + depthSteps s f row.parent_id)
      cases hf : LabelRepository.find_by_id s cid with
      | none =>
        rw [LabelRepository.find_by_id_append_right_none s row2 cid hf hcid]
      | some row =>
        rw [LabelRepository.find_by_id_append_left s [row2] cid row hf]
        show 1 + depthSteps (s ++ [row2]) f row.parent_id =
          1 + depthSteps s f row.parent_id
        have hrow : row ∈ s := List.mem_of_find?_eq_some hf
        rw [ih row.parent_id (hfresh row hrow)]

end Label

theorem get_label_ok (s : LabelStore) (uid lid : Nat) (l : LabelRow)
    (h : LabelService.get_label s uid lid = .ok l) :
    LabelRepository.find_by_id s lid = some l ∧ l.user_id = uid := by
  unfold LabelService.get_label at h
  split at h
  · cases h
  · next l0 hfind =>
    split at h
    · cases h
    · next howner =>
      cases h
      exact ⟨hfind, by omega⟩

theorem validate_hierarchy_depth_iff (s : LabelStore) (l : LabelRow) :
    (Label.validate_hierarchy_depth s l = .error .hierarchyTooDeep ↔
      5 ≤ Label.get_depth s l) ∧
    (Label.validate_hierarchy_depth s l = .ok () ↔
      Label.get_depth s l < 5) := by
  unfold Label.validate_hierarchy_depth
  by_cases h : Label.get_depth s l ≥ 5
  · rw [if_pos h]
    exact ⟨iff_of_true rfl h, iff_of_false (fun hc => by cases hc) (by omega)⟩
  · rw [if_neg h]
    exact ⟨iff_of_false (fun hc => by cases hc) h,
      iff_of_true rfl (by omega)⟩

/-- C3, creation half: a successfully created label sits at depth below 5
in the saved store (the freshness hypotheses say the autoincrement id is
genuinely new). -/
theorem create_label_depth_lt (s : LabelStore) (uid fid : Nat)
    (cd : LabelService.CreateLabelData) (sc : LabelStore) (rowc : LabelRow)
    (hfid : ∀ r ∈ s, r.label_id ≠ fid)
    (hfresh : ∀ r ∈ s, r.parent_id ≠ some fid)
    (h : LabelService.create_label s uid fid cd = .ok (sc, rowc)) :
    Label.get_depth sc rowc < 5 := by
  unfold LabelService.create_label at h
  split at h
  · cases h
  · dsimp only at h
    split at h
    case h_1 e hpc => cases h
    case h_2 u hpc =>
      have hpne : cd.parent_id ≠ some fid := by
        cases hp : cd.parent_id with
        | none => simp
        | some pid =>
          rw [hp] at hpc
          have hpc2 : (LabelService.get_label s uid pid).map
              (fun _ => ()) = .ok u := hpc
          intro hcontra
          injection hcontra with hfc
          cases hg : LabelService.get_label s uid pid with
          | error e => rw [hg] at hpc2; cases hpc2
          | ok p =>
            obtain ⟨hfindp, _⟩ := get_label_ok s uid pid p hg
            have hmem : p ∈ s := List.mem_of_find?_eq_some hfindp
            have hpid : p.label_id = pid :=
              LabelRepository.find_by_id_label_id s pid p hfindp
            exact hfid p hmem (by rw [hpid, hfc])
      split at h
      case h_1 e hvn => cases h
      case h_2 u2 hvn =>
        split at h
        case h_1 e hvc => cases h
        case h_2 c2 hvc =>
          split at h
          case h_1 e hvd => cases h
          case h_2 u3 hvd =>
            cases u3
            injection h with h2
            rw [Prod.mk.injEq] at h2
            obtain ⟨hsc, hrow⟩ := h2
            subst hsc
            subst hrow
            have hlt := (validate_hierarchy_depth_iff s _).2.mp hvd
            have hcongr := Label.depthSteps_append_congr s
              { label_id := fid, user_id := uid, parent_id := cd.parent_id,
                name := cd.name, color := c2, system_label := false }
              (fun r hr => hfresh r hr) 6 cd.parent_id hpne
            unfold Label.get_depth at hlt ⊢
            exact hcongr.symm ▸ hlt


/-- Anatomy of a successful `update_label`: the saved store replaces the
target row (and only it) by a row with the same id whose parent pointer is
unchanged, detached, or — guarded by the circularity and depth checks —
the requested new parent. -/
theorem update_label_ok_shape (s : LabelStore) (uid lid : Nat)
    (ud : LabelService.UpdateLabelData) (su : LabelStore)
    (h : LabelService.update_label s uid lid ud = .ok su) :
    ∃ label row4,
      LabelRepository.find_by_id s lid = some label ∧
      su = s.map (fun r => if r.label_id == lid then row4 else r) ∧
      row4.label_id = label.label_id ∧
      (row4.parent_id = label.parent_id ∨
       row4.parent_id = none ∨
       (∃ npid np, LabelRepository.find_by_id s npid = some np ∧
         Label.is_ancestor_of s label np = false ∧
         (label.label_id == npid) = false ∧
         Label.get_depth s np + 1 + Label.get_subtree_height s label < 5 ∧
         row4.parent_id = some npid)) := by
  unfold LabelService.update_label at h
  split at h
  case h_1 e hgl => cases h
  case h_2 label hgl =>
    obtain ⟨hfind, howner⟩ := get_label_ok s uid lid label hgl
    split at h
    case isTrue => cases h
    case isFalse hsys =>
      dsimp only at h
      split at h
      case h_1 e hstep => cases h
      case h_2 label1 hstep =>
        split at h
        case h_1 e hstep2 => cases h
        case h_2 label2 hstep2 =>
          split at h
          case h_1 e hvn => cases h
          case h_2 u2 hvn =>
            split at h
            case h_1 e hvc => cases h
            case h_2 c4 hvc =>
              cases h
              refine ⟨label, _, hfind, rfl, ?_, ?_⟩
              all_goals
                have h23 : label2.label_id = label1.label_id ∧
                    label2.parent_id = label1.parent_id := by
                  split at hstep2
                  · injection hstep2 with h3
                    rw [← h3]
                    exact ⟨rfl, rfl⟩
                  · split at hstep2
                    · split at hstep2
                      · cases hstep2
                      · injection hstep2 with h3
                        rw [← h3]
                        exact ⟨rfl, rfl⟩
                    · injection hstep2 with h3
                      rw [← h3]
                      exact ⟨rfl, rfl⟩
              all_goals
                have key : label2.label_id = label.label_id ∧
                    (label2.parent_id = label.parent_id ∨
                     label2.parent_id = none ∨
                     (∃ npid np,
                       LabelRepository.find_by_id s npid = some np ∧
                       Label.is_ancestor_of s label np = false ∧
                       (label.label_id == npid) = false ∧
                       Label.get_depth s np + 1 +
                         Label.get_subtree_height s label < 5 ∧
                       label2.parent_id = some npid)) := by
                  rw [h23.1, h23.2]
                  split at hstep
                  · injection hstep with h3
                    rw [← h3]
                    exact ⟨rfl, .inl rfl⟩
                  · injection hstep with h3
                    rw [← h3]
                    exact ⟨rfl, .inr (.inl rfl)⟩
                  · rename_i npid hpu
                    split at hstep
                    · cases hstep
                    · rename_i np hnp
                      split at hstep
                      · cases hstep
                      · rename_i hcirc
                        split at hstep
                        · cases hstep
                        · rename_i hdeep
                          injection hstep with h3
                          rw [← h3]
                          simp only [Bool.or_eq_true, not_or,
                            Bool.not_eq_true] at hcirc
                          refine ⟨rfl, .inr (.inr ⟨npid, np,
                            (get_label_ok s uid npid np hnp).1,
                            hcirc.1, hcirc.2, by omega, rfl⟩)⟩
              · cases hc : ud.color <;> exact key.1
              · cases hc : ud.color <;> exact key.2

/-- C3, update half: a successfully updated label sits at depth below 5 in
the saved store, provided every label satisfied the bound beforehand. -/
theorem update_label_depth_lt (s : LabelStore) (uid lid : Nat)
    (ud : LabelService.UpdateLabelData) (su : LabelStore)
    (hpre : ∀ r ∈ s, Label.get_depth s r < 5)
    (h : LabelService.update_label s uid lid ud = .ok su)
    (row' : LabelRow)
    (hfr : LabelRepository.find_by_id su lid = some row') :
    Label.get_depth su row' < 5 := by
  obtain ⟨label, row4, hfindl, hsu, hid4, hcases⟩ :=
    update_label_ok_shape s uid lid ud su h
  subst hsu
  have hlid : label.label_id = lid :=
    LabelRepository.find_by_id_label_id s lid label hfindl
  have hrow4 : LabelRepository.find_by_id
      (s.map (fun r => if r.label_id == lid then row4 else r)) lid =
      some row4 :=
    LabelRepository.find_by_id_map_update s lid label row4 hfindl hid4
  rw [hrow4] at hfr
  injection hfr with hrr
  rw [← hrr]
  have hrow4id : row4.label_id = lid := by rw [hid4, hlid]
  rcases hcases with hA | hB | ⟨npid, np, hfnp, hanc, hne, hlt, hp4⟩
  · -- parent unchanged: the walk is pointwise the same as before
    have hext : ∀ id,
        Option.map LabelRow.parent_id (LabelRepository.find_by_id
          (s.map (fun r => if r.label_id == lid then row4 else r)) id) =
        Option.map LabelRow.parent_id (LabelRepository.find_by_id s id) := by
      intro id
      by_cases hi : id = lid
      · subst hi
        rw [hrow4, hfindl]
        simp only [Option.map]
        rw [hA]
      · rw [LabelRepository.find_by_id_map_update_ne s lid row4 hrow4id id hi]
    unfold Label.get_depth
    rw [Label.depthSteps_ext s _ hext 6 row4.parent_id, hA]
    have hmem : label ∈ s := List.mem_of_find?_eq_some hfindl
    have hp := hpre label hmem
    unfold Label.get_depth at hp
    exact hp
  · -- detached: new depth 0
    unfold Label.get_depth
    rw [hB]
    rw [show Label.depthSteps
      (s.map (fun r => if r.label_id == lid then row4 else r)) 6 none = 0
      from rfl]
    omega
  · -- reparented under np: bounded by the depth check
    have hnpid : npid ≠ lid := by
      intro hc
      rw [beq_eq_false_iff_ne] at hne
      exact hne (by rw [hlid, hc])
    have hfnp2 : LabelRepository.find_by_id
        (s.map (fun r => if r.label_id == lid then row4 else r)) npid =
        some np :=
      (LabelRepository.find_by_id_map_update_ne s lid row4 hrow4id npid
        hnpid).trans hfnp
    unfold Label.get_depth
    rw [hp4]
    rw [show Label.depthSteps
        (s.map (fun r => if r.label_id == lid then row4 else r)) 6
        (some npid) =
      (match LabelRepository.find_by_id
          (s.map (fun r => if r.label_id == lid then row4 else r)) npid with
        | none => 0
        | some row => 1 + Label.depthSteps
            (s.map (fun r => if r.label_id == lid then row4 else r)) 5
            row.parent_id) from rfl]
    rw [hfnp2]
    show 1 + Label.depthSteps
        (s.map (fun r => if r.label_id == lid then row4 else r)) 5
        np.parent_id < 5
    have hanc2 : lid ∉ (Label.ancestorRows s 5 np.parent_id).map
        LabelRow.label_id := by
      intro hmem
      have hmem6 := Label.ancestorRows_map_fuel_le s 5 6 np.parent_id
        (by omega) lid hmem
      unfold Label.is_ancestor_of Label.get_ancestors at hanc
      rw [List.any_eq_false] at hanc
      rw [List.mem_map] at hmem6
      obtain ⟨r, hrmem, hrid⟩ := hmem6
      exact hanc r hrmem (by rw [beq_iff_eq, hrid, hlid])
    have hnv : lid ∉ Label.visitedIds s 5 np.parent_id :=
      Label.lid_not_in_visited s lid label hfindl 5 np.parent_id hanc2
    have hcongr := Label.depthSteps_congr_avoid s
      (s.map (fun r => if r.label_id == lid then row4 else r)) lid
      (fun id hi => LabelRepository.find_by_id_map_update_ne s lid row4
        hrow4id id hi) 5 np.parent_id hnv
    rw [hcongr]
    have hd : Label.get_depth s np + 1 + Label.get_subtree_height s label
        < 5 := hlt
    unfold Label.get_depth at hd
    have hd6 : Label.depthSteps s 6 np.parent_id < 4 := by omega
    have hstable := Label.depthSteps_stable s 6 5 np.parent_id
      (by omega) (by omega)
    rw [hstable]
    omega

namespace Label

/-- More fuel never shortens the walk. -/
theorem depthSteps_fuel_mono (s : LabelStore) :
    ∀ (f f' : Nat) (cur : Option Nat), f ≤ f' →
      depthSteps s f cur ≤ depthSteps s f' cur := by
  intro f
  induction f with
  | zero =>
    intro f' cur _
    cases cur with
    | none =>
      have h2 : depthSteps s f' none = 0 := by cases f' <;> rfl
      have h1 : depthSteps s 0 none = 0 := rfl
      omega
    | some cid =>
      rw [show depthSteps s 0 (some cid) = 0 from rfl]
      exact Nat.zero_le _
  | succ f ih =>
    intro f' cur hle
    cases cur with
    | none =>
      have h2 : depthSteps s f' none = 0 := by cases f' <;> rfl
      have h1 : depthSteps s (f + 1) none = 0 := rfl
      omega
    | some cid =>
      cases f' with
      | zero => omega
      | succ f'' =>
        show (match LabelRepository.find_by_id s cid with
          | none => 0
          | some row => 1 + depthSteps s f row.parent_id) ≤
          (match LabelRepository.find_by_id s cid with
          | none => 0
          | some row => 1 + depthSteps s f'' row.parent_id)
        cases hf : LabelRepository.find_by_id s cid with
        | none => exact Nat.le_refl 0
        | some row =>
          show 1 + depthSteps s f row.parent_id ≤
            1 + depthSteps s f'' row.parent_id
          have := ih f'' row.parent_id (by omega)
          omega

/-- More fuel only grows the visited set. -/
theorem visitedIds_fuel_mono (s : LabelStore) :
    ∀ (f f' : Nat) (cur : Option Nat), f ≤ f' →
      ∀ id, id ∈ visitedIds s f cur → id ∈ visitedIds s f' cur := by
  intro f
  induction f with
  | zero =>
    intro f' cur _ id hmem
    cases cur <;> simp [visitedIds] at hmem
  | succ f ih =>
    intro f' cur hle id hmem
    cases cur with
    | none => simp [visitedIds] at hmem
    | some cid =>
      cases f' with
      | zero => omega
      | succ f'' =>
        unfold visitedIds at hmem ⊢
        cases hf : LabelRepository.find_by_id s cid with
        | none =>
          rw [hf] at hmem
          have hmem2 : id ∈ [cid] := hmem
          show id ∈ [cid]
          exact hmem2
        | some row =>
          rw [hf] at hmem
          have hmem2 : id ∈ cid :: visitedIds s f row.parent_id := hmem
          show id ∈ cid :: visitedIds s f'' row.parent_id
          simp only [List.mem_cons] at hmem2 ⊢
          cases hmem2 with
          | inl h2 => exact Or.inl h2
          | inr h2 => exact Or.inr (ih f'' row.parent_id (by omega) id h2)

/-- A member's value bounds a `foldr`-computed maximum from below. -/
theorem le_foldr_max (g : LabelRow → Nat) :
    ∀ (l : List LabelRow) (x : LabelRow), x ∈ l →
      g x ≤ l.foldr (fun c acc => max acc (g c)) 0 := by
  intro l
  induction l with
  | nil =>
    intro x hx
    cases hx
  | cons a t ih =>
    intro x hx
    rw [List.foldr_cons]
    cases hx with
    | head => exact Nat.le_max_right _ _
    | tail _ hx2 => exact Nat.le_trans (ih x hx2) (Nat.le_max_left _ _)

/-- A child's subtree height bounds its parent's, one level down. -/
theorem subtreeHeightAux_child (s : LabelStore) (c : LabelRow) (id : Nat)
    (hc : c ∈ childrenOf s id) (f : Nat) :
    1 + subtreeHeightAux s f c.label_id ≤ subtreeHeightAux s (f + 1) id := by
  show 1 + subtreeHeightAux s f c.label_id ≤
    (childrenOf s id).foldr
      (fun c acc => max acc (1 + subtreeHeightAux s f c.label_id)) 0
  exact le_foldr_max (fun c => 1 + subtreeHeightAux s f c.label_id)
    (childrenOf s id) c hc

end Label

namespace Label

/-- A concrete downward-pointing witness that the node `lid` is reachable
from a store id by following parent pointers: the list records the visited
ids, ending at `lid`, with every intermediate id resolving to a row whose
parent is the next entry. -/
def PathTo (s : LabelStore) (lid : Nat) : List Nat → Prop
  | [] => False
  | [v] => v = lid
  | v :: w :: rest => v ≠ lid ∧
      (∃ row, LabelRepository.find_by_id s v = some row ∧
        row.parent_id = some w) ∧
      PathTo s lid (w :: rest)

/-- Dropping a prefix of a path leaves a path. -/
theorem pathTo_suffix (s : LabelStore) (lid : Nat) :
    ∀ (xs ys : List Nat), ys ≠ [] → PathTo s lid (xs ++ ys) →
      PathTo s lid ys := by
  intro xs
  induction xs with
  | nil =>
    intro ys _ h
    exact h
  | cons x xs ih =>
    intro ys hne h
    apply ih ys hne
    rw [List.cons_append] at h
    cases hxy : xs ++ ys with
    | nil =>
      rcases List.append_eq_nil.mp hxy with ⟨_, h2⟩
      exact absurd h2 hne
    | cons a rest =>
      rw [hxy] at h
      have h2 : x ≠ lid ∧
          (∃ row, LabelRepository.find_by_id s x = some row ∧
            row.parent_id = some a) ∧
          PathTo s lid (a :: rest) := h
      exact h2.2.2

/-- Two paths from the same id coincide: the walk is deterministic. -/
theorem pathTo_unique (s : LabelStore) (lid : Nat) :
    ∀ (P Q : List Nat) (v : Nat), PathTo s lid (v :: P) →
      PathTo s lid (v :: Q) → P = Q := by
  intro P
  induction P with
  | nil =>
    intro Q v hP hQ
    have hv : v = lid := hP
    cases Q with
    | nil => rfl
    | cons w Q' =>
      have h2 : v ≠ lid ∧
          (∃ row, LabelRepository.find_by_id s v = some row ∧
            row.parent_id = some w) ∧
          PathTo s lid (w :: Q') := hQ
      exact absurd hv h2.1
  | cons w P' ih =>
    intro Q v hP hQ
    have h1 : v ≠ lid ∧
        (∃ row, LabelRepository.find_by_id s v = some row ∧
          row.parent_id = some w) ∧
        PathTo s lid (w :: P') := hP
    cases Q with
    | nil =>
      have hv : v = lid := hQ
      exact absurd hv h1.1
    | cons w2 Q' =>
      have h2 : v ≠ lid ∧
          (∃ row, LabelRepository.find_by_id s v = some row ∧
            row.parent_id = some w2) ∧
          PathTo s lid (w2 :: Q') := hQ
      obtain ⟨row1, hf1, hp1⟩ := h1.2.1
      obtain ⟨row2, hf2, hp2⟩ := h2.2.1
      rw [hf1] at hf2
      injection hf2 with hrow
      rw [← hrow] at hp2
      rw [hp1] at hp2
      injection hp2 with hw
      rw [← hw] at h2
      rw [ih Q' w h1.2.2 h2.2.2, hw]

/-- A path never revisits an id. -/
theorem pathTo_nodup (s : LabelStore) (lid : Nat) :
    ∀ (P : List Nat), PathTo s lid P → P.Nodup := by
  intro P
  induction P with
  | nil =>
    intro h
    cases h
  | cons v rest ih =>
    intro h
    cases hr : rest with
    | nil => simp
    | cons w rest' =>
      rw [hr] at h ih
      have h1 : v ≠ lid ∧
          (∃ row, LabelRepository.find_by_id s v = some row ∧
            row.parent_id = some w) ∧
          PathTo s lid (w :: rest') := h
      rw [List.nodup_cons]
      refine ⟨?_, ih h1.2.2⟩
      intro hv
      obtain ⟨xs, ys, hsplit⟩ := List.append_of_mem hv
      have hsuf : PathTo s lid (v :: ys) := by
        apply pathTo_suffix s lid xs (v :: ys) (by simp)
        rw [← hsplit]
        exact h1.2.2
      have heq : (w :: rest') = ys := pathTo_unique s lid (w :: rest') ys v h hsuf
      have hlen : (w :: rest').length = xs.length + 1 + ys.length := by
        rw [hsplit]
        simp [List.length_append]
        omega
      rw [heq] at hlen
      omega

/-- Every id on a path resolves in the store (given that `lid` does). -/
theorem pathTo_mem_find (s : LabelStore) (lid : Nat) (label : LabelRow)
    (hlbl : LabelRepository.find_by_id s lid = some label) :
    ∀ (P : List Nat), PathTo s lid P → ∀ v ∈ P,
      ∃ row, LabelRepository.find_by_id s v = some row := by
  intro P
  induction P with
  | nil =>
    intro h
    cases h
  | cons u rest ih =>
    intro h v hv
    cases hr : rest with
    | nil =>
      rw [hr] at hv
      have hu : u = lid := by rw [hr] at h; exact h
      simp only [List.mem_singleton] at hv
      rw [hv, hu]
      exact ⟨label, hlbl⟩
    | cons w rest' =>
      rw [hr] at h hv ih
      have h1 : u ≠ lid ∧
          (∃ row, LabelRepository.find_by_id s u = some row ∧
            row.parent_id = some w) ∧
          PathTo s lid (w :: rest') := h
      cases hv with
      | head =>
        obtain ⟨row, hf, _⟩ := h1.2.1
        exact ⟨row, hf⟩
      | tail _ hv2 =>
        exact ih h1.2.2 v hv2

/-- A path cannot be longer than the store. -/
theorem pathTo_length_le (s : LabelStore) (lid : Nat) (label : LabelRow)
    (hlbl : LabelRepository.find_by_id s lid = some label)
    (P : List Nat) (h : PathTo s lid P) : P.length ≤ s.length := by
  have hsub : P ⊆ s.map LabelRow.label_id := by
    intro v hv
    obtain ⟨row, hf⟩ := pathTo_mem_find s lid label hlbl P h v hv
    rw [List.mem_map]
    exact ⟨row, List.mem_of_find?_eq_some hf,
      LabelRepository.find_by_id_label_id s v row hf⟩
  have hsp := (pathTo_nodup s lid P h).subperm hsub
  have := hsp.length_le
  rw [List.length_map] at this
  exact this

end Label

namespace Label

/-- If the walk visits `lid`, there is a path to `lid` from its start. -/
theorem visited_pathTo (s : LabelStore) (lid : Nat) :
    ∀ (f : Nat) (cur : Option Nat), lid ∈ visitedIds s f cur →
      ∃ cid P, cur = some cid ∧ PathTo s lid (cid :: P) ∧
        (cid :: P).length ≤ f := by
  intro f
  induction f with
  | zero =>
    intro cur hmem
    cases cur <;> simp [visitedIds] at hmem
  | succ f ih =>
    intro cur hmem
    cases cur with
    | none => simp [visitedIds] at hmem
    | some cid =>
      by_cases hc : cid = lid
      · refine ⟨cid, [], rfl, ?_, by simp⟩
        show cid = lid
        exact hc
      · unfold visitedIds at hmem
        cases hf : LabelRepository.find_by_id s cid with
        | none =>
          rw [hf] at hmem
          have hmem2 : lid ∈ [cid] := hmem
          simp only [List.mem_singleton] at hmem2
          exact absurd hmem2.symm hc
        | some row =>
          rw [hf] at hmem
          have hmem2 : lid ∈ cid :: visitedIds s f row.parent_id := hmem
          simp only [List.mem_cons] at hmem2
          cases hmem2 with
          | inl h2 => exact absurd h2.symm hc
          | inr h2 =>
            obtain ⟨pid, Q, hcur, hpath, hlen⟩ := ih row.parent_id h2
            refine ⟨cid, pid :: Q, rfl, ?_, ?_⟩
            · show cid ≠ lid ∧
                (∃ r, LabelRepository.find_by_id s cid = some r ∧
                  r.parent_id = some pid) ∧
                PathTo s lid (pid :: Q)
              exact ⟨hc, ⟨row, hf, hcur⟩, hpath⟩
            · simp only [List.length_cons] at hlen ⊢
              omega

/-- The original walk is at least as long as any path it can follow
(given enough fuel). -/
theorem pathTo_depth_lb (s : LabelStore) (lid : Nat) (label : LabelRow)
    (hlbl : LabelRepository.find_by_id s lid = some label) :
    ∀ (P : List Nat) (cid : Nat), PathTo s lid (cid :: P) →
      ∀ (f : Nat), (cid :: P).length ≤ f →
        (cid :: P).length ≤ depthSteps s f (some cid) := by
  intro P
  induction P with
  | nil =>
    intro cid hP f hf
    have hc : cid = lid := hP
    cases f with
    | zero => simp at hf
    | succ f' =>
      show 1 ≤ depthSteps s (f' + 1) (some cid)
      rw [hc]
      rw [show depthSteps s (f' + 1) (some lid) =
        (match LabelRepository.find_by_id s lid with
          | none => 0
          | some row => 1 + depthSteps s f' row.parent_id) from rfl]
      rw [hlbl]
      show 1 ≤ 1 + depthSteps s f' label.parent_id
      omega
  | cons w rest ih =>
    intro cid hP f hf
    have h1 : cid ≠ lid ∧
        (∃ row, LabelRepository.find_by_id s cid = some row ∧
          row.parent_id = some w) ∧
        PathTo s lid (w :: rest) := hP
    obtain ⟨row, hfrow, hprow⟩ := h1.2.1
    cases f with
    | zero => simp at hf
    | succ f' =>
      rw [show depthSteps s (f' + 1) (some cid) =
        (match LabelRepository.find_by_id s cid with
          | none => 0
          | some row => 1 + depthSteps s f' row.parent_id) from rfl]
      rw [hfrow]
      show (cid :: w :: rest).length ≤ 1 + depthSteps s f' row.parent_id
      rw [hprow]
      have hlen : (w :: rest).length ≤ f' := by
        simp only [List.length_cons] at hf ⊢
        omega
      have := ih w h1.2.2 f' hlen
      simp only [List.length_cons] at this ⊢
      omega

/-- A path into `lid` forces the subtree height at `lid` to be at least
the path length, fuel permitting: the `b`-indexed hypothesis carries the
height already accumulated below the path's start. -/
theorem pathTo_height (s : LabelStore) (lid : Nat) :
    ∀ (P : List Nat) (cid : Nat), PathTo s lid (cid :: P) →
      ∀ (b : Nat), (∀ F, b ≤ F → b ≤ subtreeHeightAux s F cid) →
      ∀ (F : Nat), P.length + b ≤ F →
        P.length + b ≤ subtreeHeightAux s F lid := by
  intro P
  induction P with
  | nil =>
    intro cid hP b hb F hF
    have hc : cid = lid := hP
    rw [← hc]
    have h2 := hb F (by omega)
    simp only [List.length_nil]
    omega
  | cons w rest ih =>
    intro cid hP b hb F hF
    have h1 : cid ≠ lid ∧
        (∃ row, LabelRepository.find_by_id s cid = some row ∧
          row.parent_id = some w) ∧
        PathTo s lid (w :: rest) := hP
    obtain ⟨row, hfrow, hprow⟩ := h1.2.1
    have hb2 : ∀ F, b + 1 ≤ F → b + 1 ≤ subtreeHeightAux s F w := by
      intro F2 hF2
      cases F2 with
      | zero => omega
      | succ m =>
        have hchild : row ∈ childrenOf s w := by
          unfold childrenOf
          rw [List.mem_filter]
          exact ⟨List.mem_of_find?_eq_some hfrow,
            by rw [beq_iff_eq]; exact hprow⟩
        have hid : row.label_id = cid :=
          LabelRepository.find_by_id_label_id s cid row hfrow
        have h2 := subtreeHeightAux_child s row w hchild m
        rw [hid] at h2
        have h3 := hb m (by omega)
        omega
    have := ih w h1.2.2 (b + 1) hb2 F (by
      simp only [List.length_cons] at hF
      omega)
    simp only [List.length_cons]
    omega

end Label

namespace Label

/-- Walking the saved store along a path into the replaced row: each path
step costs one, and the continuation from the replaced row's new parent is
bounded by `K`. -/
theorem pathTo_updated_bound (s : LabelStore) (lid : Nat)
    (label row4 : LabelRow)
    (hlbl : LabelRepository.find_by_id s lid = some label)
    (hrow4id : row4.label_id = lid) (K : Nat)
    (hK : ∀ m, m ≤ 5 →
      depthSteps (s.map (fun r => if r.label_id == lid then row4 else r)) m
        row4.parent_id ≤ K) :
    ∀ (P : List Nat) (cid : Nat), PathTo s lid (cid :: P) →
      ∀ (f : Nat), f ≤ 6 →
        depthSteps (s.map (fun r => if r.label_id == lid then row4 else r)) f
          (some cid) ≤ P.length + 1 + K := by
  have hfsu : LabelRepository.find_by_id
      (s.map (fun r => if r.label_id == lid then row4 else r)) lid =
      some row4 :=
    LabelRepository.find_by_id_map_update s lid label row4 hlbl
      (by rw [hrow4id, LabelRepository.find_by_id_label_id s lid label hlbl])
  intro P
  induction P with
  | nil =>
    intro cid hP f hf
    have hc : cid = lid := hP
    rw [hc]
    cases f with
    | zero =>
      rw [show depthSteps
        (s.map (fun r => if r.label_id == lid then row4 else r)) 0
        (some lid) = 0 from rfl]
      omega
    | succ m =>
      rw [show depthSteps
          (s.map (fun r => if r.label_id == lid then row4 else r)) (m + 1)
          (some lid) =
        (match LabelRepository.find_by_id
            (s.map (fun r => if r.label_id == lid then row4 else r)) lid with
          | none => 0
          | some row => 1 + depthSteps
              (s.map (fun r => if r.label_id == lid then row4 else r)) m
              row.parent_id) from rfl]
      rw [hfsu]
      show 1 + depthSteps
        (s.map (fun r => if r.label_id == lid then row4 else r)) m
        row4.parent_id ≤ [].length + 1 + K
      have := hK m (by omega)
      simp only [List.length_nil]
      omega
  | cons w rest ih =>
    intro cid hP f hf
    have h1 : cid ≠ lid ∧
        (∃ row, LabelRepository.find_by_id s cid = some row ∧
          row.parent_id = some w) ∧
        PathTo s lid (w :: rest) := hP
    obtain ⟨row, hfrow, hprow⟩ := h1.2.1
    cases f with
    | zero =>
      rw [show depthSteps
        (s.map (fun r => if r.label_id == lid then row4 else r)) 0
        (some cid) = 0 from rfl]
      omega
    | succ m =>
      rw [show depthSteps
          (s.map (fun r => if r.label_id == lid then row4 else r)) (m + 1)
          (some cid) =
        (match LabelRepository.find_by_id
            (s.map (fun r => if r.label_id == lid then row4 else r)) cid with
          | none => 0
          | some row => 1 + depthSteps
              (s.map (fun r => if r.label_id == lid then row4 else r)) m
              row.parent_id) from rfl]
      rw [LabelRepository.find_by_id_map_update_ne s lid row4 hrow4id cid
        h1.1, hfrow]
      show 1 + depthSteps
        (s.map (fun r => if r.label_id == lid then row4 else r)) m
        row.parent_id ≤ (w :: rest).length + 1 + K
      rw [hprow]
      have := ih w h1.2.2 m (by omega)
      simp only [List.length_cons]
      omega

end Label

/-- C3, update half, full store: a successful `update_label` leaves every
row of the saved store at depth below 5, provided every row satisfied the
bound beforehand. -/
theorem update_label_preserves (s : LabelStore) (uid lid : Nat)
    (ud : LabelService.UpdateLabelData) (su : LabelStore)
    (hpre : ∀ r ∈ s, Label.get_depth s r < 5)
    (h : LabelService.update_label s uid lid ud = .ok su) :
    ∀ r ∈ su, Label.get_depth su r < 5 := by
  obtain ⟨label, row4, hfindl, hsu, hid4, hcases⟩ :=
    update_label_ok_shape s uid lid ud su h
  have hlid : label.label_id = lid :=
    LabelRepository.find_by_id_label_id s lid label hfindl
  have hrow4id : row4.label_id = lid := by rw [hid4, hlid]
  have hfsu : LabelRepository.find_by_id
      (s.map (fun r => if r.label_id == lid then row4 else r)) lid =
      some row4 :=
    LabelRepository.find_by_id_map_update s lid label row4 hfindl hid4
  subst hsu
  intro r hr
  rw [List.mem_map] at hr
  obtain ⟨r0, hr0, hupd⟩ := hr
  by_cases hl0 : (r0.label_id == lid) = true
  · rw [if_pos hl0] at hupd
    rw [← hupd]
    exact update_label_depth_lt s uid lid ud _ hpre h row4 hfsu
  · rw [if_neg hl0] at hupd
    rw [← hupd]
    have hfindcond : ∀ id, id ≠ lid →
        LabelRepository.find_by_id
          (s.map (fun r => if r.label_id == lid then row4 else r)) id =
        LabelRepository.find_by_id s id :=
      fun id hi =>
        LabelRepository.find_by_id_map_update_ne s lid row4 hrow4id id hi
    by_cases hvis : lid ∈ Label.visitedIds s 6 r0.parent_id
    · obtain ⟨cid, P, hcur, hpath, hlen⟩ :=
        Label.visited_pathTo s lid 6 r0.parent_id hvis
      rcases hcases with hA | hB | ⟨npid, np, hfnp, hanc, hne, hlt, hp4⟩
      · have hext : ∀ id,
            Option.map LabelRow.parent_id (LabelRepository.find_by_id
              (s.map (fun r => if r.label_id == lid then row4 else r)) id) =
            Option.map LabelRow.parent_id
              (LabelRepository.find_by_id s id) := by
          intro id
          by_cases hi : id = lid
          · subst hi
            rw [hfsu, hfindl]
            simp only [Option.map]
            rw [hA]
          · rw [hfindcond id hi]
        unfold Label.get_depth
        rw [Label.depthSteps_ext s _ hext 6 r0.parent_id]
        have h2 := hpre r0 hr0
        unfold Label.get_depth at h2
        exact h2
      · have hK : ∀ m, m ≤ 5 →
            Label.depthSteps
              (s.map (fun r => if r.label_id == lid then row4 else r)) m
              row4.parent_id ≤ 0 := by
          intro m _
          rw [hB]
          have h0 : Label.depthSteps
              (s.map (fun r => if r.label_id == lid then row4 else r)) m
              none = 0 := by cases m <;> rfl
          omega
        have hub := Label.pathTo_updated_bound s lid label row4 hfindl
          hrow4id 0 hK P cid hpath 6 (by omega)
        have hlb := Label.pathTo_depth_lb s lid label hfindl P cid hpath 6
          hlen
        have hold := hpre r0 hr0
        unfold Label.get_depth at hold ⊢
        rw [hcur] at hold ⊢
        simp only [List.length_cons] at hlb
        omega
      · have hnpid : npid ≠ lid := by
          intro hc
          rw [beq_eq_false_iff_ne] at hne
          exact hne (by rw [hlid, hc])
        have hanc2 : lid ∉ (Label.ancestorRows s 5 np.parent_id).map
            LabelRow.label_id := by
          intro hmem
          have hmem6 := Label.ancestorRows_map_fuel_le s 5 6 np.parent_id
            (by omega) lid hmem
          unfold Label.is_ancestor_of Label.get_ancestors at hanc
          rw [List.any_eq_false] at hanc
          rw [List.mem_map] at hmem6
          obtain ⟨rr, hrmem, hrid⟩ := hmem6
          exact hanc rr hrmem (by rw [beq_iff_eq, hrid, hlid])
        have hnv : lid ∉ Label.visitedIds s 5 np.parent_id :=
          Label.lid_not_in_visited s lid label hfindl 5 np.parent_id hanc2
        have hK : ∀ m, m ≤ 5 →
            Label.depthSteps
              (s.map (fun r => if r.label_id == lid then row4 else r)) m
              row4.parent_id ≤
              1 + Label.depthSteps s 6 np.parent_id := by
          intro m hm
          rw [hp4]
          cases m with
          | zero =>
            rw [show Label.depthSteps
              (s.map (fun r => if r.label_id == lid then row4 else r)) 0
              (some npid) = 0 from rfl]
            omega
          | succ m2 =>
            rw [show Label.depthSteps
                (s.map (fun r => if r.label_id == lid then row4 else r))
                (m2 + 1) (some npid) =
              (match LabelRepository.find_by_id
                  (s.map (fun r => if r.label_id == lid then row4 else r))
                  npid with
                | none => 0
                | some row => 1 + Label.depthSteps
                    (s.map
                      (fun r => if r.label_id == lid then row4 else r))
                    m2 row.parent_id) from rfl]
            rw [hfindcond npid hnpid, hfnp]
            show 1 + Label.depthSteps
              (s.map (fun r => if r.label_id == lid then row4 else r)) m2
              np.parent_id ≤ 1 + Label.depthSteps s 6 np.parent_id
            have hnv2 : lid ∉ Label.visitedIds s m2 np.parent_id := by
              intro hc
              exact hnv (Label.visitedIds_fuel_mono s m2 5 np.parent_id
                (by omega) lid hc)
            have hcg := Label.depthSteps_congr_avoid s _ lid hfindcond m2
              np.parent_id hnv2
            rw [hcg]
            have := Label.depthSteps_fuel_mono s m2 6 np.parent_id (by omega)
            omega
        have hub := Label.pathTo_updated_bound s lid label row4 hfindl
          hrow4id (1 + Label.depthSteps s 6 np.parent_id) hK P cid hpath 6
          (by omega)
        have hchild : r0 ∈ Label.childrenOf s cid := by
          unfold Label.childrenOf
          rw [List.mem_filter]
          exact ⟨hr0, by rw [beq_iff_eq]; exact hcur⟩
        have hb1 : ∀ F, 1 ≤ F → 1 ≤ Label.subtreeHeightAux s F cid := by
          intro F hF
          cases F with
          | zero => omega
          | succ m =>
            have := Label.subtreeHeightAux_child s r0 cid hchild m
            omega
        have hslen : (cid :: P).length ≤ s.length :=
          Label.pathTo_length_le s lid label hfindl (cid :: P) hpath
        have hht := Label.pathTo_height s lid P cid hpath 1 hb1 s.length
          (by simp only [List.length_cons] at hslen; omega)
        unfold Label.get_depth Label.get_subtree_height at hlt
        rw [hlid] at hlt
        unfold Label.get_depth
        rw [hcur]
        omega
    · have hcg := Label.depthSteps_congr_avoid s _ lid hfindcond 6
        r0.parent_id hvis
      unfold Label.get_depth
      rw [hcg]
      have h2 := hpre r0 hr0
      unfold Label.get_depth at h2
      exact h2

/-- Anatomy of a successful `create_label`: the saved store appends the new
row, whose fields come from the request (with a validated color), after the
hierarchy-depth check passed; a requested parent resolved via `get_label`. -/
theorem create_label_ok_shape (s : LabelStore) (uid fid : Nat)
    (cd : LabelService.CreateLabelData) (sc : LabelStore) (rowc : LabelRow)
    (h : LabelService.create_label s uid fid cd = .ok (sc, rowc)) :
    ∃ c2, rowc =
      { label_id := fid, user_id := uid, parent_id := cd.parent_id,
        name := cd.name, color := c2, system_label := false } ∧
      sc = s ++ [rowc] ∧
      Label.validate_hierarchy_depth s rowc = .ok () ∧
      (cd.parent_id = none ∨ ∃ pid p, cd.parent_id = some pid ∧
        LabelService.get_label s uid pid = .ok p) := by
  unfold LabelService.create_label at h
  split at h
  · cases h
  · dsimp only at h
    split at h
    case h_1 e hpc => cases h
    case h_2 u hpc =>
      have hpar : cd.parent_id = none ∨ ∃ pid p, cd.parent_id = some pid ∧
          LabelService.get_label s uid pid = .ok p := by
        cases hp : cd.parent_id with
        | none => exact Or.inl rfl
        | some pid =>
          rw [hp] at hpc
          have hpc2 : (LabelService.get_label s uid pid).map
              (fun _ => ()) = .ok u := hpc
          cases hg : LabelService.get_label s uid pid with
          | error e => rw [hg] at hpc2; cases hpc2
          | ok p => exact Or.inr ⟨pid, p, rfl, hg⟩
      split at h
      case h_1 e hvn => cases h
      case h_2 u2 hvn =>
        split at h
        case h_1 e hvc => cases h
        case h_2 c2 hvc =>
          split at h
          case h_1 e hvd => cases h
          case h_2 u3 hvd =>
            cases u3
            injection h with h2
            rw [Prod.mk.injEq] at h2
            obtain ⟨hsc, hrow⟩ := h2
            subst hsc
            subst hrow
            exact ⟨c2, rfl, rfl, hvd, hpar⟩

/-- C3, creation half, full store: a successful `create_label` leaves every
row of the saved store at depth below 5, provided every row satisfied the
bound beforehand (the freshness hypotheses say the autoincrement id is
genuinely new). -/
theorem create_label_preserves (s : LabelStore) (uid fid : Nat)
    (cd : LabelService.CreateLabelData) (sc : LabelStore) (rowc : LabelRow)
    (hfid : ∀ r ∈ s, r.label_id ≠ fid)
    (hfresh : ∀ r ∈ s, r.parent_id ≠ some fid)
    (hpre : ∀ r ∈ s, Label.get_depth s r < 5)
    (h : LabelService.create_label s uid fid cd = .ok (sc, rowc)) :
    ∀ r ∈ sc, Label.get_depth sc r < 5 := by
  obtain ⟨c2, hrowc, hsc, hval, hpar⟩ :=
    create_label_ok_shape s uid fid cd sc rowc h
  have hrid : rowc.label_id = fid := by rw [hrowc]
  have hrpar : rowc.parent_id = cd.parent_id := by rw [hrowc]
  have hpne : cd.parent_id ≠ some fid := by
    cases hpar with
    | inl h2 => rw [h2]; simp
    | inr h2 =>
      obtain ⟨pid, p, hp, hg⟩ := h2
      rw [hp]
      intro hc
      injection hc with hfc
      obtain ⟨hfindp, _⟩ := get_label_ok s uid pid p hg
      have hmem : p ∈ s := List.mem_of_find?_eq_some hfindp
      have hpid : p.label_id = pid :=
        LabelRepository.find_by_id_label_id s pid p hfindp
      exact hfid p hmem (by rw [hpid, hfc])
  have hfresh2 : ∀ r ∈ s, r.parent_id ≠ some rowc.label_id := by
    intro r hr
    rw [hrid]
    exact hfresh r hr
  subst hsc
  intro r hr
  rw [List.mem_append] at hr
  cases hr with
  | inl hr2 =>
    have hcongr := Label.depthSteps_append_congr s rowc hfresh2 6
      r.parent_id (by rw [hrid]; exact hfresh r hr2)
    unfold Label.get_depth
    rw [hcongr]
    have h2 := hpre r hr2
    unfold Label.get_depth at h2
    exact h2
  | inr hr2 =>
    simp only [List.mem_singleton] at hr2
    subst hr2
    have hcongr := Label.depthSteps_append_congr s r hfresh2 6
      r.parent_id (by rw [hrid, hrpar]; exact hpne)
    unfold Label.get_depth
    rw [hcongr]
    have h2 := (validate_hierarchy_depth_iff s r).2.mp hval
    unfold Label.get_depth at h2
    exact h2

/-- C3: `validate_hierarchy_depth` fails — with `HierarchyTooDeep` — exactly
when the label's depth is at least 5 (and succeeds exactly when the depth is
below 5); and every label of the saved store sits at depth below 5 after any
successful `create_label` or `update_label`, provided every label satisfied
the bound beforehand (for creation, the autoincrement id is genuinely
fresh). -/
theorem C3_depth_invariant :
    (∀ (s : LabelStore) (l : LabelRow),
      (Label.validate_hierarchy_depth s l = .error .hierarchyTooDeep ↔
        5 ≤ Label.get_depth s l) ∧
      (Label.validate_hierarchy_depth s l = .ok () ↔
        Label.get_depth s l < 5)) ∧
    (∀ (s : LabelStore) (uid fid : Nat) (cd : LabelService.CreateLabelData)
      (sc : LabelStore) (rowc : LabelRow),
      (∀ r ∈ s, r.label_id ≠ fid) →
      (∀ r ∈ s, r.parent_id ≠ some fid) →
      (∀ r ∈ s, Label.get_depth s r < 5) →
      LabelService.create_label s uid fid cd = .ok (sc, rowc) →
      ∀ r ∈ sc, Label.get_depth sc r < 5) ∧
    (∀ (s : LabelStore) (uid lid : Nat) (ud : LabelService.UpdateLabelData)
      (su : LabelStore),
      (∀ r ∈ s, Label.get_depth s r < 5) →
      LabelService.update_label s uid lid ud = .ok su →
      ∀ r ∈ su, Label.get_depth su r < 5) :=
  ⟨validate_hierarchy_depth_iff, create_label_preserves,
   update_label_preserves⟩

/-- A concrete instance of C3: creating a child under a root label, then
detaching it again, keeps every depth below 5. -/
theorem C3_witness :
    Label.get_depth
      [⟨1, 7, none, pyStr "A", pyStr "#AABBCC", false⟩,
       ⟨2, 7, some 1, pyStr "B", pyStr "#AABBCC", false⟩]
      ⟨2, 7, some 1, pyStr "B", pyStr "#AABBCC", false⟩ < 5 ∧
    Label.get_depth
      [⟨1, 7, none, pyStr "A", pyStr "#AABBCC", false⟩,
       ⟨2, 7, none, pyStr "B", pyStr "#AABBCC", false⟩]
      ⟨2, 7, none, pyStr "B", pyStr "#AABBCC", false⟩ < 5 :=
  ⟨C3_depth_invariant.2.1
    [⟨1, 7, none, pyStr "A", pyStr "#AABBCC", false⟩] 7 2
    ⟨pyStr "B", pyStr "#AABBCC", some 1⟩
    [⟨1, 7, none, pyStr "A", pyStr "#AABBCC", false⟩,
     ⟨2, 7, some 1, pyStr "B", pyStr "#AABBCC", false⟩]
    ⟨2, 7, some 1, pyStr "B", pyStr "#AABBCC", false⟩
    (by decide) (by decide) (by decide) (by decide)
    ⟨2, 7, some 1, pyStr "B", pyStr "#AABBCC", false⟩ (by decide),
   C3_depth_invariant.2.2
    [⟨1, 7, none, pyStr "A", pyStr "#AABBCC", false⟩,
     ⟨2, 7, some 1, pyStr "B", pyStr "#AABBCC", false⟩] 7 2
    ⟨some none, none, none⟩
    [⟨1, 7, none, pyStr "A", pyStr "#AABBCC", false⟩,
     ⟨2, 7, none, pyStr "B", pyStr "#AABBCC", false⟩]
    (by decide) (by decide)
    ⟨2, 7, none, pyStr "B", pyStr "#AABBCC", false⟩ (by decide)⟩
